import Mathlib

/-!
# go-clickhouse: `query.go`

A shallow embedding of the query layer of `query.go` (package `clickhouse`):
the query builder (`AddExternal`, `AddParam`, `MergeParams`), the dispatcher
(`fetch`, `Exec`, `Iter`), the buffered decoders (`readData`, `ExecScan`,
`ExecScanStat`) and the row iterator (`fetchNext`, `Scan`).

Conventions of the embedding

* a Go `string` is a list of bytes; `len` is `List.length`;
* a Go `error` is identified with its message, and a `nil` error is `none`;
* a `*Conn` is an `Option Conn`, `nil` being `none`;
* a method that writes through its pointer receiver or through pointer
  arguments returns the new values next to its Go result;
* a map is the list of its entries, whose keys are distinct; a nil map is
  `none`; a call that may panic returns an `Outcome`;
* the collaborators that live outside `query.go` (the transport behind
  `conn.transport.Exec`, `errorFromResponse`, `unmarshal` and
  `encoding/json`) are parameters, and every function that may call one
  returns the list of the calls it made, in order.
-/

set_option autoImplicit false

namespace Clickhouse

/-! ## Strings and errors -/

/-- A Go `string`: an immutable sequence of bytes. -/
abbrev GoString := List UInt8

/-- The bytes (UTF-8) of a string literal of the source. -/
def bytes (s : String) : GoString := s.toList.flatMap String.utf8EncodeChar

/-- The line separator `"\n"`. -/
def nl : UInt8 := 10

/-- The field separator `"\t"`. -/
def tab : UInt8 := 9

/-- A Go `error` value, identified with its message (`errors.New(msg)` is `msg`). -/
abbrev GoError := String

/-- Go's `strings.Index(s, sep)` for a one-byte separator: the index of the
first occurrence of `sep` in `s`; `none` stands for Go's `-1`. -/
def stringsIndex (sep : UInt8) : GoString → Option Nat
  | [] => none
  | c :: cs => if c = sep then some 0 else (stringsIndex sep cs).map (· + 1)

/-- Go's `strings.Split(s, sep)` for a one-byte separator: the substrings
between the separators, one more than there are separators (so `[""]` for the
empty string). -/
def stringsSplit (sep : UInt8) : GoString → List GoString
  | [] => [[]]
  | c :: cs =>
    if c = sep then [] :: stringsSplit sep cs
    else
      match stringsSplit sep cs with
      | [] => [[c]]
      | f :: fs => (c :: f) :: fs

/-! ## Data model -/

/-- A value held in an `interface{}`: the scalars the embedding needs. -/
inductive GoValue where
  | text (s : GoString)
  | int (n : Int)
deriving DecidableEq, Repr

/-- Go's `type External struct`. -/
structure External where
  Name : GoString
  Structure : GoString
  Data : List UInt8
deriving DecidableEq, Repr

/-- The entries of an initialised `map[string][]string`, as an association
list; a key is looked up at its first entry. -/
abbrev Entries := List (GoString × List GoString)

/-- Go's `url.Values`, a `map[string][]string`: `none` is the nil map and
`some m` an initialised map with the entries `m`. -/
abbrev Values := Option Entries

/-- The outcome of a call that may end in a run-time panic. -/
inductive Outcome (α : Type) where
  | ok (value : α)
  | panicked (msg : String)
deriving DecidableEq, Repr

/-- Go's `type Query struct`. -/
structure Query where
  Stmt : GoString
  args : List GoValue
  externals : List External
  params : Values
deriving DecidableEq, Repr

/-- The inner struct of `Stat`, tagged `json:"statistics"`. A `float64` is
represented by the rational number it denotes. -/
structure Statistics where
  Elapsed : ℚ
  RowsRead : Int
  BytesRead : Int
deriving DecidableEq, Repr

set_option linter.dupNamespace false in
/-- Go's `type Stat struct`. -/
structure Stat where
  Rows : Int
  RowsBeforeLimitAtLeast : Int
  Stat : Statistics
deriving DecidableEq, Repr

/-- The zero value `Stat{}`. -/
def Stat.zero : Clickhouse.Stat := ⟨0, 0, ⟨0, 0, 0⟩⟩

/-- Go's `type Iter struct`. -/
structure Iter where
  err : Option GoError
  text : GoString
deriving DecidableEq, Repr

/-! ## Collaborators -/

/-- The connection handle. `Conn` is declared outside `query.go`; the only
thing `query.go` does with it is `conn.transport.Exec(conn, q, stream)`, which
returns a response and an error. -/
structure Conn where
  transport : Query → Bool → GoString × Option GoError

/-- The scalar conversion `unmarshal(v, data)`, declared outside `query.go`:
from the destination as it stands and the field text, the destination as the
call leaves it and the error returned. -/
abbrev Unmarshal (D : Type) := D → GoString → D × Option GoError

/-- The three uses of `json.Unmarshal` in `query.go`, as parameters:
`envelope` decodes the response into `readObj` and yields `readObj.Data`,
`target` decodes a raw message into the caller's object, `stat` decodes the
response into a `Stat`. Each returns the value written and the error. -/
structure Json (T : Type) where
  envelope : GoString → GoString × Option GoError
  target : GoString → T → T × Option GoError
  stat : GoString → Stat → Stat × Option GoError

/-- A call made to a collaborator. -/
inductive Call where
  | transportExec (q : Query) (stream : Bool)
  | errorFromResponse (resp : GoString)
  | jsonUnmarshal (data : GoString)
deriving DecidableEq, Repr

/-! ## Query builder -/

/-- The index expression `m[key]` of Go on an initialised map: the value
stored under `key`, `none` when the map has no entry for it. -/
def Entries.lookup (key : GoString) : Entries → Option (List GoString)
  | [] => none
  | (k, vs) :: rest => if k = key then some vs else Entries.lookup key rest

/-- The assignment `m[key] = vs` of Go on an initialised map: the entry of
`key` is replaced, or added when there is none. -/
def Entries.assign (key : GoString) (vs : List GoString) : Entries → Entries
  | [] => [(key, vs)]
  | (k, old) :: rest =>
    if k = key then (key, vs) :: rest else (k, old) :: Entries.assign key vs rest

/-- The index expression `v[key]` on a `url.Values`; reading a nil map finds
no entry. -/
def Values.lookup (v : Values) (key : GoString) : Option (List GoString) :=
  match v with
  | none => none
  | some m => m.lookup key

/-- Go's `func (v Values) Get(key string) string`: the first value stored
under `key`, `""` when there is none. -/
def Values.Get (v : Values) (key : GoString) : GoString :=
  match v.lookup key with
  | some (first :: _) => first
  | _ => []

/-- Go's `func (v Values) Set(key, value string)`, `v[key] = []string{value}`;
assigning to an entry of a nil map panics. -/
def Values.Set (v : Values) (key value : GoString) : Outcome Values :=
  match v with
  | none => .panicked "assignment to entry in nil map"
  | some m => .ok (some (m.assign key [value]))

/-- Go's `func (v Values) Add(key, value string)`,
`v[key] = append(v[key], value)`; assigning to an entry of a nil map panics. -/
def Values.Add (v : Values) (key value : GoString) : Outcome Values :=
  match v with
  | none => .panicked "assignment to entry in nil map"
  | some m => .ok (some (m.assign key ((m.lookup key).getD [] ++ [value])))

/-- Go's `func (q *Query) AddExternal(name string, structure string, data []byte)`. -/
def Query.AddExternal (q : Query) (name struct : GoString) (data : List UInt8) : Query :=
  { q with externals := q.externals ++ [⟨name, struct, data⟩] }

/-- Go's `func (q Query) AddParam(name string, value string)`. The receiver is
a copy, but the map it holds is the caller's: the query returned is the
caller's query with the map as the call leaves it. -/
def Query.AddParam (q : Query) (name value : GoString) : Outcome Query :=
  match q.params.Add name value with
  | .ok p => .ok { q with params := p }
  | .panicked msg => .panicked msg

/-- The loop `for key, value := range params` of `MergeParams` over the
entries of `params`, in the order in which the iteration visits them, on the
parameter map `p` of the query. `value[0]` is evaluated before `Set` is
called and panics on an empty list. -/
def mergeLoop (p : Values) : Entries → Outcome Values
  | [] => .ok p
  | (key, value) :: rest =>
    if p.Get key = [] then
      match value with
      | [] => .panicked "index out of range [0] with length 0"
      | first :: _ =>
        match p.Set key first with
        | .ok p1 => mergeLoop p1 rest
        | .panicked msg => .panicked msg
    else mergeLoop p rest

/-- Go's `func (q Query) MergeParams(params url.Values)`; ranging over a nil
map visits nothing. As for `AddParam`, the query returned is the caller's
query with the map as the call leaves it. -/
def Query.MergeParams (q : Query) (params : Values) : Outcome Query :=
  match mergeLoop q.params (match params with | none => [] | some m => m) with
  | .ok p => .ok { q with params := p }
  | .panicked msg => .panicked msg

/-! ## Dispatcher -/

/-- What `fetch` returns, with the collaborator calls it made. -/
structure Fetched where
  resp : GoString
  err : Option GoError
  calls : List Call
deriving DecidableEq, Repr

/-- Go's `func (q Query) fetch(conn *Conn) (resp string, err error)`. -/
def Query.fetch (errorFromResponse : GoString → Option GoError) (q : Query)
    (conn : Option Conn) : Fetched :=
  match conn with
  | none => ⟨[], some "Connection pointer is nil", []⟩
  | some c =>
    match c.transport q false with
    | (resp, some e) => ⟨resp, some e, [.transportExec q false]⟩
    | (resp, none) =>
      ⟨resp, errorFromResponse resp, [.transportExec q false, .errorFromResponse resp]⟩

/-- Go's `func (q Query) Exec(conn *Conn) (err error)`. -/
def Query.Exec (errorFromResponse : GoString → Option GoError) (q : Query)
    (conn : Option Conn) : Option GoError × List Call :=
  let f := q.fetch errorFromResponse conn
  (f.err, f.calls)

/-- Go's `func (q Query) Iter(conn *Conn) *Iter`. -/
def Query.Iter (errorFromResponse : GoString → Option GoError) (q : Query)
    (conn : Option Conn) : Clickhouse.Iter × List Call :=
  match conn with
  | none => (⟨some "Connection pointer is nil", []⟩, [])
  | some c =>
    match c.transport q false with
    | (_, some e) => (⟨some e, []⟩, [.transportExec q false])
    | (resp, none) =>
      match errorFromResponse resp with
      | some e => (⟨some e, []⟩, [.transportExec q false, .errorFromResponse resp])
      | none => (⟨none, resp⟩, [.transportExec q false, .errorFromResponse resp])

/-! ## Structured decoder -/

/-- What `readData` and `ExecScan` return: the error, the caller's object as
the call leaves it, and the collaborator calls made. -/
structure Decoded (T : Type) where
  err : Option GoError
  obj : T
  calls : List Call

/-- Go's `func (q Query) readData(resp []byte, obj interface{}) (err error)`. -/
def Query.readData {T : Type} (json : Json T) (_q : Query) (resp : GoString) (obj : T) :
    Decoded T :=
  match json.envelope resp with
  | (_, some errUnmarshal) => ⟨some errUnmarshal, obj, [.jsonUnmarshal resp]⟩
  | (data, none) =>
    match json.target data obj with
    | (obj1, errUnmarshalObj) => ⟨errUnmarshalObj, obj1, [.jsonUnmarshal resp, .jsonUnmarshal data]⟩

/-- Go's `func (q Query) ExecScan(conn *Conn, dataObj interface{}) (error)`. -/
def Query.ExecScan {T : Type} (errorFromResponse : GoString → Option GoError) (json : Json T)
    (q : Query) (conn : Option Conn) (dataObj : T) : Decoded T :=
  let q1 : Query := { q with Stmt := q.Stmt ++ bytes " FORMAT JSON" }
  let f := q1.fetch errorFromResponse conn
  match f.err with
  | none =>
    let d := q1.readData json f.resp dataObj
    ⟨d.err, d.obj, f.calls ++ d.calls⟩
  | some e => ⟨some e, dataObj, f.calls⟩

/-- What `ExecScanStat` returns. -/
structure DecodedStat (T : Type) where
  stat : Stat
  err : Option GoError
  obj : T
  calls : List Call

/-- Go's `func (q Query) ExecScanStat(conn *Conn, dataObj interface{}) (Stat, error)`. -/
def Query.ExecScanStat {T : Type} (errorFromResponse : GoString → Option GoError)
    (json : Json T) (q : Query) (conn : Option Conn) (dataObj : T) : DecodedStat T :=
  let q1 : Query := { q with Stmt := q.Stmt ++ bytes " FORMAT JSON" }
  let f := q1.fetch errorFromResponse conn
  let statObj := Stat.zero
  match f.err with
  | none =>
    let d := q1.readData json f.resp dataObj
    match d.err with
    | some e => ⟨statObj, some e, d.obj, f.calls ++ d.calls⟩
    | none =>
      match json.stat f.resp statObj with
      | (statObj1, errUnmarshal) =>
        ⟨statObj1, errUnmarshal, d.obj, f.calls ++ d.calls ++ [.jsonUnmarshal f.resp]⟩
  | some e => ⟨statObj, some e, dataObj, f.calls⟩

/-! ## Decoding a `Stat` -/

/-- A parsed JSON document. A number keeps the text of its literal. -/
inductive JsonValue where
  | null
  | bool (b : Bool)
  | number (literal : GoString)
  | string (s : GoString)
  | array (items : List JsonValue)
  | object (members : List (GoString × JsonValue))

/-- The value of a non-empty string of decimal digits. -/
def decimalDigits (s : GoString) : Option Nat :=
  if s ≠ [] ∧ s.all (fun c => 48 ≤ c ∧ c ≤ 57) then
    some (s.foldl (fun acc c => 10 * acc + (c.toNat - 48)) 0)
  else none

/-- Go's `strconv.ParseInt(s, 10, 64)` on the literal of a JSON number, with
which `encoding/json` fills an `int` (of 64 bits): an optional minus sign and
decimal digits, within the range of `int64`; `none` when it fails. -/
def strconvParseInt (s : GoString) : Option Int :=
  match s with
  | 45 :: rest =>
    (decimalDigits rest).bind fun n => if n ≤ 2 ^ 63 then some (-(n : Int)) else none
  | _ => (decimalDigits s).bind fun n => if n < 2 ^ 63 then some (n : Int) else none

/-- What `json.Unmarshal` does to a struct field of type `int` for the value
`v`: `null` leaves the field, a number that `strconv.ParseInt` accepts is
stored, anything else leaves the field and is an error. -/
def jsonInt (v : JsonValue) (old : Int) : Int × Option GoError :=
  match v with
  | .null => (old, none)
  | .number literal =>
    match strconvParseInt literal with
    | some n => (n, none)
    | none => (old, some "json: cannot unmarshal number into Go struct field of type int")
  | _ => (old, some "json: cannot unmarshal value into Go struct field of type int")

/-- What `json.Unmarshal` does to a struct field of type `float64` for the
value `v`; `parseFloat` is `strconv.ParseFloat(literal, 64)`. -/
def jsonFloat (parseFloat : GoString → Option ℚ) (v : JsonValue) (old : ℚ) :
    ℚ × Option GoError :=
  match v with
  | .null => (old, none)
  | .number literal =>
    match parseFloat literal with
    | some x => (x, none)
    | none => (old, some "json: cannot unmarshal number into Go struct field of type float64")
  | _ => (old, some "json: cannot unmarshal value into Go struct field of type float64")

/-- What `json.Unmarshal` does to the inner struct of `Stat` for the value
`v`, following the tags `json:"elapsed"`, `json:"rows_read"` and
`json:"bytes_read"` of the source. The members of an object are decoded in
order, each into the field whose tag is its key; a member with another key is
skipped (the match of a key that differs from the tag in letter case only,
which Go also accepts, is left out); the first error is the one returned. -/
def jsonStatistics (parseFloat : GoString → Option ℚ) (v : JsonValue) (old : Statistics) :
    Statistics × Option GoError :=
  match v with
  | .null => (old, none)
  | .object members =>
    members.foldl (fun acc member =>
      if member.1 = bytes "elapsed" then
        ({ acc.1 with Elapsed := (jsonFloat parseFloat member.2 acc.1.Elapsed).1 },
          acc.2.orElse fun _ => (jsonFloat parseFloat member.2 acc.1.Elapsed).2)
      else if member.1 = bytes "rows_read" then
        ({ acc.1 with RowsRead := (jsonInt member.2 acc.1.RowsRead).1 },
          acc.2.orElse fun _ => (jsonInt member.2 acc.1.RowsRead).2)
      else if member.1 = bytes "bytes_read" then
        ({ acc.1 with BytesRead := (jsonInt member.2 acc.1.BytesRead).1 },
          acc.2.orElse fun _ => (jsonInt member.2 acc.1.BytesRead).2)
      else acc) (old, none)
  | _ => (old, some "json: cannot unmarshal value into Go value of type struct")

/-- What `json.Unmarshal` does to a `Stat` for the document `v`, following the
tags of the source: `json:"rows"` and `json:"rows_before_limit_at_least"` are
keys of the document itself, and `json:"statistics"` is the key of the object
that holds the other three. Keys are matched as in `jsonStatistics`. -/
def jsonStat (parseFloat : GoString → Option ℚ) (v : JsonValue) (old : Clickhouse.Stat) :
    Clickhouse.Stat × Option GoError :=
  match v with
  | .null => (old, none)
  | .object members =>
    members.foldl (fun acc member =>
      if member.1 = bytes "rows" then
        ({ acc.1 with Rows := (jsonInt member.2 acc.1.Rows).1 },
          acc.2.orElse fun _ => (jsonInt member.2 acc.1.Rows).2)
      else if member.1 = bytes "rows_before_limit_at_least" then
        ({ acc.1 with
            RowsBeforeLimitAtLeast := (jsonInt member.2 acc.1.RowsBeforeLimitAtLeast).1 },
          acc.2.orElse fun _ => (jsonInt member.2 acc.1.RowsBeforeLimitAtLeast).2)
      else if member.1 = bytes "statistics" then
        ({ acc.1 with Stat := (jsonStatistics parseFloat member.2 acc.1.Stat).1 },
          acc.2.orElse fun _ => (jsonStatistics parseFloat member.2 acc.1.Stat).2)
      else acc) (old, none)
  | _ => (old, some "json: cannot unmarshal value into Go value of type clickhouse.Stat")

/-- The call `json.Unmarshal([]byte(resp), &statObj)` of `ExecScanStat`:
`parse` is the JSON syntax of `encoding/json`, `none` on a text that is not
valid JSON, in which case nothing is written. -/
def jsonUnmarshalStat (parse : GoString → Option JsonValue)
    (parseFloat : GoString → Option ℚ) (resp : GoString) (statObj : Clickhouse.Stat) :
    Clickhouse.Stat × Option GoError :=
  match parse resp with
  | none => (statObj, some "invalid character looking for beginning of value")
  | some doc => jsonStat parseFloat doc statObj

/-- The envelope of the statistics example of the specification, as text:
all five numbers are members of `statistics`. -/
def specEnvelopeText : GoString :=
  bytes ("\x7b\"data\": [], \"statistics\": \x7b\"rows\": 5, " ++
    "\"rows_before_limit_at_least\": 5, \"elapsed\": 0.01, " ++
    "\"rows_read\": 5, \"bytes_read\": 100\x7d\x7d")

/-- The envelope of the statistics example of the specification, parsed. -/
def specEnvelope : JsonValue :=
  .object [(bytes "data", .array []),
    (bytes "statistics", .object [(bytes "rows", .number (bytes "5")),
      (bytes "rows_before_limit_at_least", .number (bytes "5")),
      (bytes "elapsed", .number (bytes "0.01")),
      (bytes "rows_read", .number (bytes "5")),
      (bytes "bytes_read", .number (bytes "100"))])]

/-- The `float64` that the literal `0.01` denotes, `0x3F847AE147AE147B`. -/
def float64_0_01 : ℚ := 5764607523034235 / 576460752303423488

/-- The envelope that `Stat` is declared for, as text: `rows` and
`rows_before_limit_at_least` are members of the envelope itself. -/
def statEnvelopeText : GoString :=
  bytes ("\x7b\"data\": [], \"rows\": 5, \"rows_before_limit_at_least\": 5, " ++
    "\"statistics\": \x7b\"elapsed\": 0.01, \"rows_read\": 5, \"bytes_read\": 100\x7d\x7d")

/-- The envelope that `Stat` is declared for, parsed. -/
def statEnvelope : JsonValue :=
  .object [(bytes "data", .array []),
    (bytes "rows", .number (bytes "5")),
    (bytes "rows_before_limit_at_least", .number (bytes "5")),
    (bytes "statistics", .object [(bytes "elapsed", .number (bytes "0.01")),
      (bytes "rows_read", .number (bytes "5")),
      (bytes "bytes_read", .number (bytes "100"))])]

/-- An instance of the JSON collaborator for the examples, on a response that
is `text` and parses to `doc`: `data` is `[]` and decodes into a number of
rows, and the literal `0.01` is the only number read as a `float64`. -/
def exampleJson (text : GoString) (doc : JsonValue) : Json Nat where
  envelope := fun resp => if resp = text then (bytes "[]", none) else ([], some "invalid JSON")
  target := fun data obj => if data = bytes "[]" then (0, none) else (obj, some "invalid JSON")
  stat := jsonUnmarshalStat (fun resp => if resp = text then some doc else none)
    (fun literal => if literal = bytes "0.01" then some float64_0_01 else none)

/-! ## Row iterator -/

/-- Go's `func (r *Iter) Error() error`. -/
def Iter.Error (r : Iter) : Option GoError := r.err

/-- Go's `func (r *Iter) Len() int`. -/
def Iter.Len (r : Iter) : Nat := r.text.length

/-- Go's `func (r *Iter) fetchNext() string`: the line returned and the
iterator as the call leaves it. -/
def Iter.fetchNext (r : Iter) : GoString × Iter :=
  match stringsIndex nl r.text with
  | none => (r.text, { r with text := [] })
  | some pos => (r.text.take pos, { r with text := r.text.drop (pos + 1) })

/-- The loop `for i, v := range vars` of `Scan`, from index `i` on: the
destinations as the loop leaves them and the error of the first conversion
that fails, at which the loop stops. `a[i]` is read with a default that is
never used: `Scan` enters the loop only when `len(vars) ≤ len(a)`. -/
def scanLoop {D : Type} (unmarshal : Unmarshal D) (a : List GoString) :
    Nat → List D → List D × Option GoError
  | _, [] => ([], none)
  | i, v :: vs =>
    match unmarshal v (a.getD i []) with
    | (v1, some err) => (v1 :: vs, some err)
    | (v1, none) =>
      match scanLoop unmarshal a (i + 1) vs with
      | (vs1, res) => (v1 :: vs1, res)

/-- What `Scan` returns, with the iterator and the destinations as the call
leaves them. -/
structure Scanned (D : Type) where
  ok : Bool
  iter : Iter
  vars : List D

/-- Go's `func (r *Iter) Scan(vars ...interface{}) bool`. -/
def Iter.Scan {D : Type} (unmarshal : Unmarshal D) (r : Iter) (vars : List D) : Scanned D :=
  match r.fetchNext with
  | (row, r1) =>
    if row.length = 0 then ⟨false, r1, vars⟩
    else
      let a := stringsSplit tab row
      if a.length < vars.length then ⟨false, r1, vars⟩
      else
        match scanLoop unmarshal a 0 vars with
        | (vars1, some err) => ⟨false, { r1 with err := some err }, vars1⟩
        | (vars1, none) => ⟨true, r1, vars1⟩

/-- The caller's loop: `n` successive `Scan` calls on the same destinations.
Returns the results of the calls in order, and the iterator and destinations
after the last one. -/
def scanTimes {D : Type} (unmarshal : Unmarshal D) : Nat → Iter → List D → List Bool × Iter × List D
  | 0, r, vars => ([], r, vars)
  | n + 1, r, vars =>
    let s := r.Scan unmarshal vars
    match scanTimes unmarshal n s.iter s.vars with
    | (oks, r1, vars1) => (s.ok :: oks, r1, vars1)

/-- Modelled from the spec: the scalar-unmarshal collaborator `unmarshal`
(not in `query.go`), dispatched over the type of the destination. A text
destination receives the text of the field. An integer destination receives
the value of a field made of decimal digits; on any other field the
conversion fails with an error that quotes the field, and the destination is
left as it was. -/
def unmarshalScalar : Unmarshal GoValue
  | .text _, data => (.text data, none)
  | .int n, data =>
    if data ≠ [] ∧ data.all (fun c => 48 ≤ c ∧ c ≤ 57) then
      (.int (data.foldl (fun acc c => 10 * acc + (c.toNat - 48 : Nat)) 0), none)
    else
      (.int n, some ("invalid syntax: " ++ String.mk (data.map (fun c => Char.ofNat c.toNat))))


/-! ## Vocabulary of the statements -/

/-- Specification vocabulary, not a function of the source: the first line of
a buffer, that is the text before its first newline (the whole buffer when it
has none). -/
def firstLine (t : GoString) : GoString := t.takeWhile (· != nl)

/-- Specification vocabulary, not a function of the source: the text that
follows the first newline of a buffer (empty when it has none). -/
def afterLine (t : GoString) : GoString := (t.dropWhile (· != nl)).drop 1

/-! ## Line extraction -/

theorem stringsIndex_none {sep : UInt8} {t : GoString} (h : stringsIndex sep t = none) :
    t.takeWhile (· != sep) = t ∧ t.dropWhile (· != sep) = [] := by
  induction t with
  | nil => simp
  | cons c cs ih =>
    by_cases hc : c = sep
    · simp [stringsIndex, hc] at h
    · simp only [stringsIndex, hc, if_false, Option.map_eq_none'] at h
      simp [List.takeWhile_cons, List.dropWhile_cons, hc, ih h]

theorem stringsIndex_some {sep : UInt8} {t : GoString} {pos : Nat}
    (h : stringsIndex sep t = some pos) :
    t.take pos = t.takeWhile (· != sep) ∧
      t.drop (pos + 1) = (t.dropWhile (· != sep)).drop 1 := by
  induction t generalizing pos with
  | nil => simp [stringsIndex] at h
  | cons c cs ih =>
    by_cases hc : c = sep
    · simp only [stringsIndex, hc, if_true, Option.some.injEq] at h
      subst h
      simp [List.takeWhile_cons, List.dropWhile_cons, hc]
    · simp only [stringsIndex, hc, if_false, Option.map_eq_some'] at h
      obtain ⟨p, hp, rfl⟩ := h
      simp [List.takeWhile_cons, List.dropWhile_cons, hc, ih hp]

/-- `fetchNext` returns the text before the first newline and keeps the text
after it. -/
theorem fetchNext_eq (r : Iter) :
    r.fetchNext = (firstLine r.text, { r with text := afterLine r.text }) := by
  unfold Iter.fetchNext firstLine afterLine
  split
  · next h => simp [stringsIndex_none h]
  · next pos h => simp [stringsIndex_some h]

theorem takeWhile_line (l rest : GoString) (h : nl ∉ l) :
    (l ++ nl :: rest).takeWhile (· != nl) = l ∧
      (l ++ nl :: rest).dropWhile (· != nl) = nl :: rest := by
  induction l with
  | nil => simp [List.takeWhile_cons, List.dropWhile_cons]
  | cons c cs ih =>
    simp only [List.mem_cons, not_or] at h
    have hc : c ≠ nl := fun e => h.1 e.symm
    simp [List.takeWhile_cons, List.dropWhile_cons, hc, ih h.2]

theorem takeWhile_last (l : GoString) (h : nl ∉ l) :
    l.takeWhile (· != nl) = l ∧ l.dropWhile (· != nl) = [] := by
  induction l with
  | nil => simp
  | cons c cs ih =>
    simp only [List.mem_cons, not_or] at h
    have hc : c ≠ nl := fun e => h.1 e.symm
    simp [List.takeWhile_cons, List.dropWhile_cons, hc, ih h.2]

/-! ## The conversion loop -/

theorem scanLoop_length {D : Type} (um : Unmarshal D) (a : List GoString) (i : Nat)
    (vars : List D) : (scanLoop um a i vars).1.length = vars.length := by
  induction vars generalizing i with
  | nil => simp [scanLoop]
  | cons v vs ih =>
    unfold scanLoop
    split
    · simp
    · simp [ih (i + 1)]

/-- When every conversion of the loop succeeds, the loop reports no error and
leaves in each destination the conversion of the field of the same index. -/
theorem scanLoop_ok {D : Type} (um : Unmarshal D) (a : List GoString) (i : Nat)
    (vars : List D)
    (h : ∀ p ∈ List.zip vars (a.drop i), (um p.1 p.2).2 = none)
    (hlen : i + vars.length ≤ a.length) :
    scanLoop um a i vars = (List.zipWith (fun v f => (um v f).1) vars (a.drop i), none) := by
  induction vars generalizing i with
  | nil => simp [scanLoop]
  | cons v vs ih =>
    simp only [List.length_cons] at hlen
    have hi : i < a.length := by omega
    rw [List.drop_eq_getElem_cons hi] at h ⊢
    have hget : a.getD i [] = a[i] := by simp [List.getD_eq_getElem?_getD, hi]
    have h0 : (um v a[i]).2 = none := h (v, a[i]) (by simp [-List.getElem_cons_drop])
    have ih1 := ih (i + 1) (fun p hp => h p (by simp [-List.getElem_cons_drop, hp])) (by omega)
    unfold scanLoop
    rw [hget]
    split
    · next v1 err heq => rw [heq] at h0; simp at h0
    · next v1 heq => simp [-List.getElem_cons_drop, ih1, heq]

/-- When the loop reports no error, every conversion it made succeeded and
each destination holds the conversion of the field of the same index. -/
theorem scanLoop_none {D : Type} (um : Unmarshal D) (a : List GoString) (i : Nat)
    (vars : List D) (h : (scanLoop um a i vars).2 = none)
    (hlen : i + vars.length ≤ a.length) :
    (scanLoop um a i vars).1 = List.zipWith (fun v f => (um v f).1) vars (a.drop i) ∧
      ∀ p ∈ List.zip vars (a.drop i), (um p.1 p.2).2 = none := by
  induction vars generalizing i with
  | nil => simp [scanLoop]
  | cons v vs ih =>
    simp only [List.length_cons] at hlen
    have hi : i < a.length := by omega
    rw [List.drop_eq_getElem_cons hi]
    have hget : a.getD i [] = a[i] := by simp [List.getD_eq_getElem?_getD, hi]
    unfold scanLoop at h ⊢
    rw [hget] at h ⊢
    split at h
    · simp at h
    · next v1 heq =>
      simp only at h
      have ih1 := ih (i + 1) h (by omega)
      simp only [heq, List.zipWith_cons_cons, List.zip_cons_cons, List.mem_cons]
      refine ⟨by rw [ih1.1], ?_⟩
      rintro p (rfl | hp)
      · simp [heq]
      · exact ih1.2 p hp

/-- The loop stops at the first conversion that fails: the destinations
before it hold their conversions, the failing one is as the conversion left
it, the ones after it are not touched, and the error is the one returned. -/
theorem scanLoop_fail {D : Type} (um : Unmarshal D) (a : List GoString) (i : Nat)
    (pre post : List D) (v : D) (e : GoError)
    (hpre : ∀ p ∈ List.zip pre (a.drop i), (um p.1 p.2).2 = none)
    (hlen : i + pre.length ≤ a.length)
    (hfail : (um v (a.getD (i + pre.length) [])).2 = some e) :
    scanLoop um a i (pre ++ v :: post) =
      (List.zipWith (fun v f => (um v f).1) pre (a.drop i) ++
        (um v (a.getD (i + pre.length) [])).1 :: post, some e) := by
  induction pre generalizing i with
  | nil =>
    simp only [List.nil_append, List.length_nil, Nat.add_zero, List.zipWith_nil_left] at hfail ⊢
    unfold scanLoop
    split
    · next v1 err heq => rw [heq] at hfail ⊢; simp at hfail; simp [hfail]
    · next v1 heq => rw [heq] at hfail; simp at hfail
  | cons w ws ih =>
    simp only [List.length_cons] at hlen hfail
    have hi : i < a.length := by omega
    rw [List.drop_eq_getElem_cons hi] at hpre ⊢
    have hget : a.getD i [] = a[i] := by simp [List.getD_eq_getElem?_getD, hi]
    have h0 : (um w a[i]).2 = none := hpre (w, a[i]) (by simp [-List.getElem_cons_drop])
    have e1 : i + (ws.length + 1) = (i + 1) + ws.length := by omega
    rw [e1] at hfail
    have ih1 := ih (i + 1) (fun p hp => hpre p (by simp [-List.getElem_cons_drop, hp])) (by omega) hfail
    simp only [List.cons_append, List.length_cons]
    unfold scanLoop
    rw [hget]
    split
    · next v1 err heq => rw [heq] at h0; simp at h0
    · next v1 heq => simp [-List.getElem_cons_drop, ih1, heq, e1]

/-- An error reported by the loop is the error of the conversion of one of
the fields into the destination of the same index. -/
theorem scanLoop_some {D : Type} (um : Unmarshal D) (a : List GoString) (i : Nat)
    (vars : List D) (e : GoError) (h : (scanLoop um a i vars).2 = some e) :
    ∃ (j : Nat) (d : D), vars[j]? = some d ∧ (um d (a.getD (i + j) [])).2 = some e := by
  induction vars generalizing i with
  | nil => simp [scanLoop] at h
  | cons v vs ih =>
    unfold scanLoop at h
    split at h
    · next v1 err heq =>
      simp only [Option.some.injEq] at h
      exact ⟨0, v, by simp, by rw [Nat.add_zero, heq, h]⟩
    · next v1 heq =>
      obtain ⟨j, d, hd, he⟩ := ih (i + 1) h
      exact ⟨j + 1, d, by simpa using hd, by rw [← he]; congr 3; omega⟩

/-- A pair of a zip sits at a common index of the two lists. -/
theorem mem_zip_index {α β : Type} {l₁ : List α} {l₂ : List β} {p : α × β}
    (h : p ∈ List.zip l₁ l₂) : ∃ i : Nat, l₁[i]? = some p.1 ∧ l₂[i]? = some p.2 := by
  obtain ⟨i, hi⟩ := List.mem_iff_getElem?.1 h
  exact ⟨i, List.getElem?_zip_eq_some.1 hi⟩

/-! ## Scan -/

/-- `Scan` in terms of the first line of the buffer and the text after it. -/
theorem Scan_eq {D : Type} (um : Unmarshal D) (r : Iter) (vars : List D) :
    r.Scan um vars =
      if (firstLine r.text).length = 0 then ⟨false, { r with text := afterLine r.text }, vars⟩
      else if (stringsSplit tab (firstLine r.text)).length < vars.length then
        ⟨false, { r with text := afterLine r.text }, vars⟩
      else
        match scanLoop um (stringsSplit tab (firstLine r.text)) 0 vars with
        | (vars1, some err) => ⟨false, { err := some err, text := afterLine r.text }, vars1⟩
        | (vars1, none) => ⟨true, { r with text := afterLine r.text }, vars1⟩ := by
  unfold Iter.Scan
  rw [fetchNext_eq]

/-- On an empty buffer `Scan` returns false and changes nothing. -/
theorem Scan_empty {D : Type} (um : Unmarshal D) (r : Iter) (vars : List D)
    (h : r.text = []) : r.Scan um vars = ⟨false, r, vars⟩ := by
  rw [Scan_eq]
  cases r with
  | mk err text =>
    simp only at h
    subst h
    simp [firstLine, afterLine]

/-- A non-empty first line with enough fields, all of whose conversions
succeed, is produced as a row. -/
theorem Scan_row {D : Type} (um : Unmarshal D) (r : Iter) (vars : List D)
    (hrow : firstLine r.text ≠ [])
    (hwidth : vars.length ≤ (stringsSplit tab (firstLine r.text)).length)
    (hconv : ∀ p ∈ List.zip vars (stringsSplit tab (firstLine r.text)), (um p.1 p.2).2 = none) :
    r.Scan um vars = ⟨true, { r with text := afterLine r.text },
      List.zipWith (fun v f => (um v f).1) vars (stringsSplit tab (firstLine r.text))⟩ := by
  rw [Scan_eq]
  have h1 : ¬ (firstLine r.text).length = 0 := by simpa using hrow
  have h2 : ¬ (stringsSplit tab (firstLine r.text)).length < vars.length := by omega
  rw [if_neg h1, if_neg h2, scanLoop_ok um _ 0 vars (by simpa using hconv) (by omega)]
  simp

/-- What a `Scan` call that returns true has done. -/
theorem Scan_true {D : Type} (um : Unmarshal D) (r : Iter) (vars : List D)
    (h : (r.Scan um vars).ok = true) :
    firstLine r.text ≠ [] ∧
    vars.length ≤ (stringsSplit tab (firstLine r.text)).length ∧
    (∀ p ∈ List.zip vars (stringsSplit tab (firstLine r.text)), (um p.1 p.2).2 = none) ∧
    r.Scan um vars = ⟨true, { r with text := afterLine r.text },
      List.zipWith (fun v f => (um v f).1) vars (stringsSplit tab (firstLine r.text))⟩ := by
  have hs := Scan_eq um r vars
  by_cases h1 : (firstLine r.text).length = 0
  · rw [if_pos h1] at hs; rw [hs] at h; simp at h
  · rw [if_neg h1] at hs
    by_cases h2 : (stringsSplit tab (firstLine r.text)).length < vars.length
    · rw [if_pos h2] at hs; rw [hs] at h; simp at h
    · rw [if_neg h2] at hs
      have hrow : firstLine r.text ≠ [] := by simpa using h1
      have hnone : (scanLoop um (stringsSplit tab (firstLine r.text)) 0 vars).2 = none := by
        generalize scanLoop um (stringsSplit tab (firstLine r.text)) 0 vars = res at hs
        rcases res with ⟨vars1, _ | err⟩
        · rfl
        · simp only at hs; rw [hs] at h; simp at h
      have hl := scanLoop_none um _ 0 vars hnone (by omega)
      simp only [List.drop_zero] at hl
      exact ⟨hrow, by omega, hl.2, Scan_row um r vars hrow (by omega) hl.2⟩

/-- Every `Scan` call consumes exactly the first line of the buffer and its
newline, whatever it returns. -/
theorem Scan_text {D : Type} (um : Unmarshal D) (r : Iter) (vars : List D) :
    (r.Scan um vars).iter.text = afterLine r.text := by
  rw [Scan_eq]
  split
  · rfl
  · split
    · rfl
    · split <;> rfl

/-- A `Scan` call leaves the error as it was, or returns false and sets it to
the error of a conversion of a field of the line that failed. -/
theorem Scan_error {D : Type} (um : Unmarshal D) (r : Iter) (vars : List D) :
    (r.Scan um vars).iter.Error = r.Error ∨
      ((r.Scan um vars).ok = false ∧
        ∃ (j : Nat) (d : D) (g : GoString) (e : GoError), vars[j]? = some d ∧
          (stringsSplit tab (firstLine r.text))[j]? = some g ∧ (um d g).2 = some e ∧
          (r.Scan um vars).iter.Error = some e) := by
  rw [Scan_eq]
  by_cases h1 : (firstLine r.text).length = 0
  · rw [if_pos h1]; exact Or.inl rfl
  · rw [if_neg h1]
    by_cases h2 : (stringsSplit tab (firstLine r.text)).length < vars.length
    · rw [if_pos h2]; exact Or.inl rfl
    · rw [if_neg h2]
      rcases hres : scanLoop um (stringsSplit tab (firstLine r.text)) 0 vars with ⟨vars1, _ | e⟩
      · exact Or.inl rfl
      · right
        obtain ⟨j, d, hd, he⟩ := scanLoop_some um _ 0 vars e (by rw [hres])
        have hj : j < vars.length := (List.getElem?_eq_some.1 hd).1
        have hg : j < (stringsSplit tab (firstLine r.text)).length := by omega
        refine ⟨rfl, j, d, (stringsSplit tab (firstLine r.text))[j], e, hd, by simp [hg], ?_, rfl⟩
        simpa [hg] using he

/-- No `Scan` call clears the error. -/
theorem Scan_error_ne_none {D : Type} (um : Unmarshal D) (r : Iter) (vars : List D)
    (h : r.Error ≠ none) : (r.Scan um vars).iter.Error ≠ none := by
  rcases Scan_error um r vars with h1 | ⟨-, -, -, -, e, -, -, -, h1⟩
  · rwa [h1]
  · simp [h1]

/-! ## Repeated calls -/

theorem scanTimes_empty {D : Type} (um : Unmarshal D) (n : Nat) (r : Iter) (vars : List D)
    (h : r.text = []) : scanTimes um n r vars = (List.replicate n false, r, vars) := by
  induction n with
  | zero => rfl
  | succ n ih => simp [scanTimes, Scan_empty um r vars h, ih, List.replicate_succ]

theorem scanTimes_add {D : Type} (um : Unmarshal D) (n m : Nat) (r : Iter) (vars : List D) :
    scanTimes um (n + m) r vars =
      ((scanTimes um n r vars).1 ++
          (scanTimes um m (scanTimes um n r vars).2.1 (scanTimes um n r vars).2.2).1,
        (scanTimes um m (scanTimes um n r vars).2.1 (scanTimes um n r vars).2.2).2) := by
  induction n generalizing r vars with
  | zero => simp [scanTimes]
  | succ n ih =>
    have e : n + 1 + m = (n + m) + 1 := by omega
    rw [e]
    simp only [scanTimes]
    rw [ih]
    simp

/-- Scanning a run of complete lines: each call returns true and consumes one
line, whatever text follows the run. `Inv i` is a property of the `i`-th
destination that the conversions keep and under which they succeed. -/
theorem scanTimes_lines {D : Type} (um : Unmarshal D) (Inv : Nat → D → Prop) (k : Nat)
    (e : Option GoError) (rest : GoString) (lines : List GoString) (vars : List D)
    (hk : vars.length = k)
    (hline : ∀ l ∈ lines, l ≠ [] ∧ nl ∉ l)
    (hwidth : ∀ l ∈ lines, k ≤ (stringsSplit tab l).length)
    (hinv : ∀ i d, vars[i]? = some d → Inv i d)
    (hconv : ∀ l ∈ lines, ∀ i d f, i < k → (stringsSplit tab l)[i]? = some f → Inv i d →
      (um d f).2 = none ∧ Inv i (um d f).1) :
    ∃ vars1, scanTimes um lines.length ⟨e, lines.flatMap (fun l => l ++ [nl]) ++ rest⟩ vars =
        (List.replicate lines.length true, ⟨e, rest⟩, vars1) ∧
      vars1.length = k ∧ ∀ i d, vars1[i]? = some d → Inv i d := by
  induction lines generalizing vars with
  | nil => exact ⟨vars, by simp [scanTimes], hk, hinv⟩
  | cons l ls ih =>
    have hl := hline l (by simp)
    have hw := hwidth l (by simp)
    have hc := hconv l (by simp)
    have htext : (l :: ls).flatMap (fun l => l ++ [nl]) ++ rest =
        l ++ nl :: (ls.flatMap (fun l => l ++ [nl]) ++ rest) := by simp
    have hfirst : firstLine (l ++ nl :: (ls.flatMap (fun l => l ++ [nl]) ++ rest)) = l :=
      (takeWhile_line l _ hl.2).1
    have hafter : afterLine (l ++ nl :: (ls.flatMap (fun l => l ++ [nl]) ++ rest)) =
        ls.flatMap (fun l => l ++ [nl]) ++ rest := by
      simp [afterLine, (takeWhile_line l _ hl.2).2]
    have hidx : ∀ i, i < k ↔ i < vars.length := fun i => by rw [hk]
    have hscan := Scan_row um ⟨e, l ++ nl :: (ls.flatMap (fun l => l ++ [nl]) ++ rest)⟩ vars
      (by simpa [hfirst] using hl.1) (by simpa [hfirst, hk] using hw)
      (by
        intro p hp
        simp only [hfirst] at hp
        obtain ⟨i, h1, h2⟩ := mem_zip_index hp
        have hi : i < k := (hidx i).2 (List.getElem?_eq_some.1 h1).1
        exact (hc i p.1 p.2 hi h2 (hinv i p.1 h1)).1)
    simp only [hfirst, hafter] at hscan
    obtain ⟨vars1, h1, h2, h3⟩ := ih
      (List.zipWith (fun v f => (um v f).1) vars (stringsSplit tab l))
      (by simp [List.length_zipWith, hk, hw])
      (fun l1 h => hline l1 (by simp [h])) (fun l1 h => hwidth l1 (by simp [h]))
      (by
        intro i d hd
        obtain ⟨x, y, hx, hy, rfl⟩ := List.getElem?_zipWith_eq_some.1 hd
        have hi : i < k := (hidx i).2 (List.getElem?_eq_some.1 hx).1
        exact (hc i x y hi hy (hinv i x hx)).2)
      (fun l1 h => hconv l1 (by simp [h]))
    refine ⟨vars1, ?_, h2, h3⟩
    simp only [List.length_cons, scanTimes, htext, hscan, h1, List.replicate_succ]

/-- After one `Scan` call per newline-terminated line, whatever the calls
return, the buffer holds what follows those lines. -/
theorem scanTimes_text {D : Type} (um : Unmarshal D) (err : Option GoError)
    (lines : List GoString) (rest : GoString) (vars : List D)
    (hlines : ∀ l ∈ lines, nl ∉ l) :
    (scanTimes um lines.length ⟨err, lines.flatMap (fun l => l ++ [nl]) ++ rest⟩ vars).2.1.text
      = rest := by
  induction lines generalizing err vars with
  | nil => simp [scanTimes]
  | cons l ls ih =>
    have hl := hlines l (by simp)
    have htext : (l :: ls).flatMap (fun l => l ++ [nl]) ++ rest =
        l ++ nl :: (ls.flatMap (fun l => l ++ [nl]) ++ rest) := by simp
    have hafter : afterLine (l ++ nl :: (ls.flatMap (fun l => l ++ [nl]) ++ rest)) =
        ls.flatMap (fun l => l ++ [nl]) ++ rest := by
      simp [afterLine, (takeWhile_line l _ hl).2]
    have hs := Scan_text um ⟨err, l ++ nl :: (ls.flatMap (fun l => l ++ [nl]) ++ rest)⟩ vars
    rw [hafter] at hs
    simp only [List.length_cons, scanTimes, htext]
    generalize Iter.Scan um ⟨err, l ++ nl :: (ls.flatMap (fun l => l ++ [nl]) ++ rest)⟩ vars = s
      at hs
    rcases s with ⟨ok, ⟨err1, text1⟩, vars1⟩
    simp only at hs
    subst hs
    exact ih _ _ (fun l1 h => hlines l1 (by simp [h]))

theorem scanTimes_error_ne_none {D : Type} (um : Unmarshal D) (n : Nat) (r : Iter)
    (vars : List D) (h : r.Error ≠ none) : (scanTimes um n r vars).2.1.Error ≠ none := by
  induction n generalizing r vars with
  | zero => simpa [scanTimes] using h
  | succ n ih =>
    simp only [scanTimes]
    exact ih _ _ (Scan_error_ne_none um r vars h)

/-! ## The row iterator -/

/-- C1: on a response made of `N` lines, each non-empty, each terminated by
a newline and each holding at least as many tab-separated fields as there are
destinations, and when the conversions of the fields succeed (`Inv i` is a
property of the `i`-th destination that the conversions keep and under which
they succeed, for instance its type), `Scan` returns true on the first `N`
calls and false on every later one, and `Error()` is nil afterwards. -/
theorem scan_complete_lines {D : Type} (um : Unmarshal D) (Inv : Nat → D → Prop)
    (lines : List GoString) (vars : List D)
    (hline : ∀ l ∈ lines, l ≠ [] ∧ nl ∉ l)
    (hwidth : ∀ l ∈ lines, vars.length ≤ (stringsSplit tab l).length)
    (hinv : ∀ i d, vars[i]? = some d → Inv i d)
    (hconv : ∀ l ∈ lines, ∀ i d f, i < vars.length → (stringsSplit tab l)[i]? = some f →
      Inv i d → (um d f).2 = none ∧ Inv i (um d f).1)
    (m : Nat) :
    (scanTimes um (lines.length + (1 + m)) ⟨none, lines.flatMap (fun l => l ++ [nl])⟩ vars).1 =
        List.replicate lines.length true ++ List.replicate (1 + m) false ∧
      (scanTimes um (lines.length + (1 + m))
        ⟨none, lines.flatMap (fun l => l ++ [nl])⟩ vars).2.1.Error = none := by
  obtain ⟨vars1, h1, -, -⟩ :=
    scanTimes_lines um Inv vars.length none [] lines vars rfl hline hwidth hinv hconv
  simp only [List.append_nil] at h1
  rw [scanTimes_add, h1]
  simp [scanTimes_empty um (1 + m) ⟨none, []⟩ vars1 rfl, Iter.Error]

/-- Instance of C1: the two lines `"a\tb"` and `"c\td"` with two text destinations,
over five calls. -/
theorem scan_complete_lines_witness :
    (scanTimes unmarshalScalar ([bytes "a\tb", bytes "c\td"].length + (1 + 2))
        ⟨none, [bytes "a\tb", bytes "c\td"].flatMap (fun l => l ++ [nl])⟩
        [GoValue.text [], GoValue.text []]).1 =
        List.replicate [bytes "a\tb", bytes "c\td"].length true ++ List.replicate (1 + 2) false ∧
      (scanTimes unmarshalScalar ([bytes "a\tb", bytes "c\td"].length + (1 + 2))
        ⟨none, [bytes "a\tb", bytes "c\td"].flatMap (fun l => l ++ [nl])⟩
        [GoValue.text [], GoValue.text []]).2.1.Error = none :=
  scan_complete_lines unmarshalScalar (fun _ d => ∃ s, d = GoValue.text s)
    [bytes "a\tb", bytes "c\td"] [GoValue.text [], GoValue.text []]
    (by decide) (by decide)
    (by
      intro i d h
      match i, h with
      | 0, h => exact ⟨[], by simpa using h.symm⟩
      | 1, h => exact ⟨[], by simpa using h.symm⟩
      | n + 2, h => simp at h)
    (by
      rintro l - i d f - - ⟨s, rfl⟩
      exact ⟨rfl, f, rfl⟩)
    2

/-- C2: when `Scan` returns true, the destinations are as many as before and
the `i`-th one holds the conversion of the `i`-th tab-separated field of the
first line of the buffer as it stood before the call, which succeeded; the
fields after the `k`-th play no part (the result is computed from the first
`k` fields alone). On the response `"a\tb\nc\td\n"` with two text
destinations, the calls yield `("a","b")`, then `("c","d")`, then false with
no error. -/
theorem scan_true_fields :
    (∀ (D : Type) (um : Unmarshal D) (r : Iter) (vars : List D),
      (r.Scan um vars).ok = true →
        (r.Scan um vars).vars.length = vars.length ∧
        (∀ (i : Nat) (v : D), vars[i]? = some v →
          ∃ f, (stringsSplit tab (firstLine r.text))[i]? = some f ∧
            (um v f).2 = none ∧ (r.Scan um vars).vars[i]? = some (um v f).1) ∧
        (r.Scan um vars).vars = List.zipWith (fun v f => (um v f).1) vars
          ((stringsSplit tab (firstLine r.text)).take vars.length)) ∧
    (let s1 := Iter.Scan unmarshalScalar ⟨none, bytes "a\tb\nc\td\n"⟩
        [GoValue.text [], GoValue.text []]
     let s2 := s1.iter.Scan unmarshalScalar s1.vars
     let s3 := s2.iter.Scan unmarshalScalar s2.vars
     s1.ok = true ∧ s1.vars = [GoValue.text (bytes "a"), GoValue.text (bytes "b")] ∧
     s2.ok = true ∧ s2.vars = [GoValue.text (bytes "c"), GoValue.text (bytes "d")] ∧
     s3.ok = false ∧ s3.iter.Error = none) := by
  refine ⟨?_, by decide⟩
  intro D um r vars h
  obtain ⟨-, hwidth, hconv, hscan⟩ := Scan_true um r vars h
  rw [hscan]
  simp only
  refine ⟨by simp [List.length_zipWith, hwidth], ?_, ?_⟩
  · intro i v hv
    have hi : i < vars.length := (List.getElem?_eq_some.1 hv).1
    have hf : i < (stringsSplit tab (firstLine r.text)).length := by omega
    refine ⟨(stringsSplit tab (firstLine r.text))[i], by simp [hf], ?_, ?_⟩
    · apply hconv (v, (stringsSplit tab (firstLine r.text))[i])
      apply List.mem_iff_getElem?.2
      exact ⟨i, List.getElem?_zip_eq_some.2 ⟨hv, by simp [hf]⟩⟩
    · exact List.getElem?_zipWith_eq_some.2 ⟨v, _, hv, by simp [hf], rfl⟩
  · rw [List.zipWith_eq_zipWith_take_min]
    simp [Nat.min_eq_left hwidth]

/-- Instance of C2: a row of three fields scanned into an integer and a text
destination; the third field plays no part. -/
theorem scan_true_fields_witness :
    (Iter.Scan unmarshalScalar ⟨none, bytes "7\tx\ty\n"⟩ [GoValue.int 0, GoValue.text []]).vars =
      List.zipWith (fun v f => (unmarshalScalar v f).1) [GoValue.int 0, GoValue.text []]
        ((stringsSplit tab (firstLine (⟨none, bytes "7\tx\ty\n"⟩ : Iter).text)).take
          [GoValue.int 0, GoValue.text []].length) :=
  (scan_true_fields.1 GoValue unmarshalScalar ⟨none, bytes "7\tx\ty\n"⟩
    [GoValue.int 0, GoValue.text []] (by decide)).2.2

/-- C3, as the code has it: `Scan` does not read the sticky error. When the
error is set and the buffer is empty, `Scan` returns false and leaves the
buffer, the error and the destinations as they were; that is the case of every
iterator whose error was set at dispatch, since `Iter` stores an error with an
empty buffer. -/
theorem scan_error_empty_buffer {D : Type} (um : Unmarshal D) (vars : List D) :
    (∀ r : Iter, r.Error ≠ none → r.text = [] → r.Scan um vars = ⟨false, r, vars⟩) ∧
    (∀ (errorFromResponse : GoString → Option GoError) (q : Query) (conn : Option Conn),
      (q.Iter errorFromResponse conn).1.Error ≠ none →
        (q.Iter errorFromResponse conn).1.text = [] ∧
        (q.Iter errorFromResponse conn).1.Scan um vars =
          ⟨false, (q.Iter errorFromResponse conn).1, vars⟩) := by
  refine ⟨fun r _ h => Scan_empty um r vars h, ?_⟩
  intro errorFromResponse q conn herr
  have htext : (q.Iter errorFromResponse conn).1.text = [] := by
    unfold Iter.Error at herr
    unfold Query.Iter at herr ⊢
    cases conn with
    | none => rfl
    | some c =>
      simp only at herr ⊢
      rcases hc : c.transport q false with ⟨resp, _ | e⟩
      · rw [hc] at herr
        simp only at herr ⊢
        cases h : errorFromResponse resp with
        | none => rw [h] at herr; simp at herr
        | some e => rfl
      · rfl
  exact ⟨htext, Scan_empty um _ vars htext⟩

/-- Instance of C3 as amended: the iterator that `Iter` returns for a nil
connection. -/
theorem scan_error_empty_buffer_witness :
    (Query.Iter (fun _ => none) ⟨bytes "SELECT 1", [], [], some []⟩ none).1.text = [] ∧
      (Query.Iter (fun _ => none) ⟨bytes "SELECT 1", [], [], some []⟩ none).1.Scan unmarshalScalar
          [GoValue.int 0] =
        ⟨false, (Query.Iter (fun _ => none) ⟨bytes "SELECT 1", [], [], some []⟩ none).1,
          [GoValue.int 0]⟩ :=
  (scan_error_empty_buffer unmarshalScalar [GoValue.int 0]).2 (fun _ => none)
    ⟨bytes "SELECT 1", [], [], some []⟩ none (by decide)

/-- C3 as stated fails: after a conversion failure has set the error, with
text left in the buffer, the next `Scan` parses the next line, returns true,
consumes the line and writes the destination. -/
theorem scan_error_set_counterexample :
    (Iter.Scan unmarshalScalar ⟨none, bytes "x\n12\n"⟩ [GoValue.int 0]).iter =
      ⟨some "invalid syntax: x", bytes "12\n"⟩ ∧
    (Iter.Scan unmarshalScalar ⟨none, bytes "x\n12\n"⟩ [GoValue.int 0]).vars = [GoValue.int 0] ∧
    (Iter.Scan unmarshalScalar ⟨some "invalid syntax: x", bytes "12\n"⟩ [GoValue.int 0]).ok = true ∧
    (Iter.Scan unmarshalScalar ⟨some "invalid syntax: x", bytes "12\n"⟩ [GoValue.int 0]).iter.text
      = [] ∧
    (Iter.Scan unmarshalScalar ⟨some "invalid syntax: x", bytes "12\n"⟩ [GoValue.int 0]).vars =
      [GoValue.int 12] := by
  decide

/-- C4, as the code has it: when a conversion fails during a `Scan` call
(the conversions into the destinations `pre` succeed and the conversion of the
next field `f` into the next destination `v` returns the error `e`), the call
returns false and `Error()` is `e` afterwards; after any number of further
`Scan` calls `Error()` is still non-nil; and each `Scan` call either leaves the
error as it was or returns false and replaces it with the error of a
conversion that failed during that call. -/
theorem conversion_failure_error {D : Type} (um : Unmarshal D) (r : Iter)
    (pre post : List D) (v : D) (f : GoString) (e : GoError)
    (hrow : firstLine r.text ≠ [])
    (hwidth : (pre ++ v :: post).length ≤ (stringsSplit tab (firstLine r.text)).length)
    (hpre : ∀ (i : Nat) (w : D) (g : GoString), pre[i]? = some w →
      (stringsSplit tab (firstLine r.text))[i]? = some g → (um w g).2 = none)
    (hf : (stringsSplit tab (firstLine r.text))[pre.length]? = some f)
    (hfail : (um v f).2 = some e) :
    (r.Scan um (pre ++ v :: post)).ok = false ∧
    (r.Scan um (pre ++ v :: post)).iter.Error = some e ∧
    (∀ (n : Nat) (vars2 : List D),
      (scanTimes um n (r.Scan um (pre ++ v :: post)).iter vars2).2.1.Error ≠ none) ∧
    (∀ (r2 : Iter) (vars2 : List D),
      (r2.Scan um vars2).iter.Error = r2.Error ∨
        ((r2.Scan um vars2).ok = false ∧
          ∃ (j : Nat) (d : D) (g : GoString) (e2 : GoError), vars2[j]? = some d ∧
            (stringsSplit tab (firstLine r2.text))[j]? = some g ∧ (um d g).2 = some e2 ∧
            (r2.Scan um vars2).iter.Error = some e2)) := by
  have h1 : ¬ (firstLine r.text).length = 0 := by simpa using hrow
  have h2 : ¬ (stringsSplit tab (firstLine r.text)).length < (pre ++ v :: post).length := by
    omega
  have hlen : pre.length < (stringsSplit tab (firstLine r.text)).length := by
    simp only [List.length_append, List.length_cons] at hwidth
    omega
  have hget : (stringsSplit tab (firstLine r.text)).getD (0 + pre.length) [] = f := by
    simp [hf]
  have hloop := scanLoop_fail um (stringsSplit tab (firstLine r.text)) 0 pre post v e
    (by
      intro p hp
      simp only [List.drop_zero] at hp
      obtain ⟨i, hi1, hi2⟩ := mem_zip_index hp
      exact hpre i p.1 p.2 hi1 hi2)
    (by omega) (by rw [hget]; exact hfail)
  have hscan : (r.Scan um (pre ++ v :: post)).ok = false ∧
      (r.Scan um (pre ++ v :: post)).iter.Error = some e := by
    rw [Scan_eq, if_neg h1, if_neg h2, hloop]
    exact ⟨rfl, rfl⟩
  refine ⟨hscan.1, hscan.2, ?_, fun r2 vars2 => Scan_error um r2 vars2⟩
  intro n vars2
  exact scanTimes_error_ne_none um n _ vars2 (by simp [hscan.2])

/-- Instance of C4 as amended: the second of three fields is not a number and
its destination is an integer. -/
theorem conversion_failure_error_witness :
    (Iter.Scan unmarshalScalar ⟨none, bytes "a\tx\tb\n"⟩
      ([GoValue.text []] ++ GoValue.int 0 :: [GoValue.text []])).iter.Error =
      some "invalid syntax: x" :=
  (conversion_failure_error unmarshalScalar ⟨none, bytes "a\tx\tb\n"⟩ [GoValue.text []]
    [GoValue.text []] (GoValue.int 0) (bytes "x") "invalid syntax: x" (by decide) (by decide)
    (by
      intro i w g hw _
      match i, hw with
      | 0, hw => simp at hw; subst hw; rfl
      | n + 1, hw => simp at hw)
    (by decide) (by decide)).2.1

/-- C4 as stated fails: the error set by a failed conversion is replaced by
the error of a later failed conversion. -/
theorem error_stable_counterexample :
    (Iter.Scan unmarshalScalar ⟨none, bytes "x\ny\n"⟩ [GoValue.int 0]).ok = false ∧
    (Iter.Scan unmarshalScalar ⟨none, bytes "x\ny\n"⟩ [GoValue.int 0]).iter =
      ⟨some "invalid syntax: x", bytes "y\n"⟩ ∧
    (Iter.Scan unmarshalScalar ⟨none, bytes "x\ny\n"⟩ [GoValue.int 0]).vars = [GoValue.int 0] ∧
    (Iter.Scan unmarshalScalar ⟨some "invalid syntax: x", bytes "y\n"⟩ [GoValue.int 0]).iter.Error
      = some "invalid syntax: y" ∧
    (some "invalid syntax: y" : Option GoError) ≠ some "invalid syntax: x" := by
  decide

/-- C5, as the code has it: when `Scan` returns false with `Error()` nil and
leaves the buffer empty, the iteration is exhausted: every later `Scan` call,
whatever its destinations, returns false, and the buffer stays empty and the
error nil. -/
theorem scan_exhausted {D : Type} (um : Unmarshal D) (r : Iter) (vars vars2 : List D)
    (n : Nat)
    (_hfalse : (r.Scan um vars).ok = false)
    (hnil : (r.Scan um vars).iter.Error = none)
    (hempty : (r.Scan um vars).iter.text = []) :
    (scanTimes um n (r.Scan um vars).iter vars2).1 = List.replicate n false ∧
    (scanTimes um n (r.Scan um vars).iter vars2).2.1.text = [] ∧
    (scanTimes um n (r.Scan um vars).iter vars2).2.1.Error = none := by
  rw [scanTimes_empty um n _ vars2 hempty]
  exact ⟨rfl, hempty, hnil⟩

/-- Instance of C5 as amended: the buffer holds a single empty line. -/
theorem scan_exhausted_witness :
    (scanTimes unmarshalScalar 3
      (Iter.Scan unmarshalScalar ⟨none, bytes "\n"⟩ [GoValue.text []]).iter [GoValue.text []]).1 =
      List.replicate 3 false :=
  (scan_exhausted unmarshalScalar ⟨none, bytes "\n"⟩ [GoValue.text []] [GoValue.text []] 3
    (by decide) (by decide) (by decide)).1

/-- C5 as stated fails: on an empty line followed by a row, `Scan` returns
false with `Error()` nil and the next `Scan` returns true. -/
theorem scan_false_not_final_counterexample :
    (Iter.Scan unmarshalScalar ⟨none, bytes "\na\n"⟩ [GoValue.text []]).ok = false ∧
    (Iter.Scan unmarshalScalar ⟨none, bytes "\na\n"⟩ [GoValue.text []]).iter =
      ⟨none, bytes "a\n"⟩ ∧
    (Iter.Scan unmarshalScalar ⟨none, bytes "\na\n"⟩ [GoValue.text []]).vars = [GoValue.text []] ∧
    (Iter.Scan unmarshalScalar ⟨none, bytes "a\n"⟩ [GoValue.text []]).ok = true ∧
    (Iter.Scan unmarshalScalar ⟨none, bytes "a\n"⟩ [GoValue.text []]).vars =
      [GoValue.text (bytes "a")] := by
  decide

/-- C6: on an iterator with no error whose next line is non-empty and has
fewer tab-separated fields than there are destinations, `Scan` returns false,
`Error()` stays nil and the destinations are as they were (the line is
consumed). -/
theorem scan_short_row {D : Type} (um : Unmarshal D) (r : Iter) (vars : List D)
    (herr : r.Error = none)
    (hrow : firstLine r.text ≠ [])
    (hshort : (stringsSplit tab (firstLine r.text)).length < vars.length) :
    (r.Scan um vars).ok = false ∧ (r.Scan um vars).iter.Error = none ∧
      (r.Scan um vars).vars = vars ∧ (r.Scan um vars).iter.text = afterLine r.text := by
  have h1 : ¬ (firstLine r.text).length = 0 := by simpa using hrow
  rw [Scan_eq, if_neg h1, if_pos hshort]
  exact ⟨rfl, herr, rfl, rfl⟩

/-- Instance of C6: a line of one field scanned into two destinations. -/
theorem scan_short_row_witness :
    (Iter.Scan unmarshalScalar ⟨none, bytes "a\nb\tc\n"⟩ [GoValue.text [], GoValue.int 5]).ok = false ∧
      (Iter.Scan unmarshalScalar ⟨none, bytes "a\nb\tc\n"⟩
        [GoValue.text [], GoValue.int 5]).iter.Error = none ∧
      (Iter.Scan unmarshalScalar ⟨none, bytes "a\nb\tc\n"⟩ [GoValue.text [], GoValue.int 5]).vars =
        [GoValue.text [], GoValue.int 5] ∧
      (Iter.Scan unmarshalScalar ⟨none, bytes "a\nb\tc\n"⟩
        [GoValue.text [], GoValue.int 5]).iter.text = afterLine (bytes "a\nb\tc\n") :=
  scan_short_row unmarshalScalar ⟨none, bytes "a\nb\tc\n"⟩ [GoValue.text [], GoValue.int 5]
    rfl (by decide) (by decide)

/-- C7: on a response whose last line `last` is non-empty and is not followed
by a newline, the last line is what the buffer holds after one `Scan` call per
line before it; and on a buffer that holds it, `fetchNext` returns the whole
buffer as the line and leaves the buffer empty, and `Scan` returns true, with
the conversions of the fields in the destinations, when the line has at least
as many fields as there are destinations and every conversion succeeds. -/
theorem scan_last_line {D : Type} (um : Unmarshal D) (err : Option GoError)
    (lines : List GoString) (last : GoString) (vars0 vars : List D)
    (hlines : ∀ l ∈ lines, nl ∉ l)
    (hrow : last ≠ [])
    (hlast : nl ∉ last)
    (hwidth : vars.length ≤ (stringsSplit tab last).length)
    (hconv : ∀ (i : Nat) (v : D) (f : GoString), vars[i]? = some v →
      (stringsSplit tab last)[i]? = some f → (um v f).2 = none) :
    (scanTimes um lines.length ⟨err, lines.flatMap (fun l => l ++ [nl]) ++ last⟩ vars0).2.1.text
      = last ∧
    ∀ r : Iter, r.text = last →
      r.fetchNext = (last, { r with text := [] }) ∧
      r.Scan um vars = ⟨true, { r with text := [] },
        List.zipWith (fun v f => (um v f).1) vars (stringsSplit tab last)⟩ := by
  refine ⟨scanTimes_text um err lines last vars0 hlines, ?_⟩
  intro r hr
  subst hr
  have hfirst : firstLine r.text = r.text := (takeWhile_last r.text hlast).1
  have hafter : afterLine r.text = [] := by simp [afterLine, (takeWhile_last r.text hlast).2]
  refine ⟨by rw [fetchNext_eq, hfirst, hafter], ?_⟩
  have hscan := Scan_row um r vars (by rwa [hfirst]) (by rwa [hfirst])
    (by
      intro p hp
      rw [hfirst] at hp
      obtain ⟨i, h1, h2⟩ := mem_zip_index hp
      exact hconv i p.1 p.2 h1 h2)
  rw [hfirst, hafter] at hscan
  exact hscan

/-- Instance of C7: the response `"a\tb\nc\td"`, whose last line has no newline. -/
theorem scan_last_line_witness :
    Iter.Scan unmarshalScalar ⟨none, bytes "c\td"⟩ [GoValue.text [], GoValue.text []] =
      ⟨true, { (⟨none, bytes "c\td"⟩ : Iter) with text := [] },
        List.zipWith (fun v f => (unmarshalScalar v f).1) [GoValue.text [], GoValue.text []]
          (stringsSplit tab (bytes "c\td"))⟩ :=
  ((scan_last_line unmarshalScalar none [bytes "a\tb"] (bytes "c\td")
    [GoValue.text [], GoValue.text []] [GoValue.text [], GoValue.text []]
    (by decide) (by decide) (by decide) (by decide)
    (by
      intro i v f hv _
      match i, hv with
      | 0, hv => simp at hv; subst hv; rfl
      | 1, hv => simp at hv; subst hv; rfl
      | n + 2, hv => simp at hv)).2 ⟨none, bytes "c\td"⟩ rfl).2

/-! ## The dispatcher -/

/-- C8: with a nil connection, `Exec`, `ExecScan`, `ExecScanStat` and `Iter`
report the error "Connection pointer is nil" (`Iter` as its sticky error,
with an empty buffer) and call neither the transport nor `errorFromResponse`
(nor the decoder: the object is left as it was and the `Stat` is zero). -/
theorem nil_conn_error {T : Type} (errorFromResponse : GoString → Option GoError)
    (json : Json T) (q : Query) (dataObj : T) :
    q.Exec errorFromResponse none = (some "Connection pointer is nil", []) ∧
    ((q.ExecScan errorFromResponse json none dataObj).err = some "Connection pointer is nil" ∧
      (q.ExecScan errorFromResponse json none dataObj).calls = [] ∧
      (q.ExecScan errorFromResponse json none dataObj).obj = dataObj) ∧
    ((q.ExecScanStat errorFromResponse json none dataObj).err = some "Connection pointer is nil" ∧
      (q.ExecScanStat errorFromResponse json none dataObj).calls = [] ∧
      (q.ExecScanStat errorFromResponse json none dataObj).obj = dataObj ∧
      (q.ExecScanStat errorFromResponse json none dataObj).stat = Stat.zero) ∧
    (q.Iter errorFromResponse none).1.Error = some "Connection pointer is nil" ∧
    (q.Iter errorFromResponse none).1.text = [] ∧
    (q.Iter errorFromResponse none).2 = [] :=
  ⟨rfl, ⟨rfl, rfl, rfl⟩, ⟨rfl, rfl, rfl, rfl⟩, rfl, rfl, rfl⟩

/-- C9: with a non-nil connection, `Exec` returns the error of the transport
when the transport call fails, without calling `errorFromResponse`; it returns
the error of `errorFromResponse` when the transport succeeds and
`errorFromResponse` finds a failure in the body; and it returns nil exactly
when the transport succeeds and `errorFromResponse` finds none. -/
theorem exec_error (errorFromResponse : GoString → Option GoError) (q : Query) (c : Conn) :
    (∀ resp e, c.transport q false = (resp, some e) →
      q.Exec errorFromResponse (some c) = (some e, [Call.transportExec q false])) ∧
    (∀ resp e, c.transport q false = (resp, none) → errorFromResponse resp = some e →
      q.Exec errorFromResponse (some c) =
        (some e, [Call.transportExec q false, Call.errorFromResponse resp])) ∧
    ((q.Exec errorFromResponse (some c)).1 = none ↔
      (c.transport q false).2 = none ∧ errorFromResponse (c.transport q false).1 = none) := by
  unfold Query.Exec Query.fetch
  refine ⟨?_, ?_, ?_⟩
  · intro resp e h
    simp [h]
  · intro resp e h he
    simp [h, he]
  · rcases hc : c.transport q false with ⟨resp, _ | e⟩ <;> simp [hc]

/-- Instance of C9: a transport that fails with "connection reset". -/
theorem exec_error_witness :
    Query.Exec (fun _ => none) ⟨bytes "SELECT 1", [], [], some []⟩
        (some ⟨fun _ _ => (bytes "partial", some "connection reset")⟩) =
      (some "connection reset", [Call.transportExec ⟨bytes "SELECT 1", [], [], some []⟩ false]) :=
  (exec_error (fun _ => none) ⟨bytes "SELECT 1", [], [], some []⟩
    ⟨fun _ _ => (bytes "partial", some "connection reset")⟩).1 (bytes "partial")
    "connection reset" rfl

/-- C10: for every connection (nil or not), query, transport and
`errorFromResponse`, the sticky error of `Iter(conn)` is the error `fetch`
returns, which is the error `Exec` returns; the three make the same
collaborator calls; and when that error is nil the buffer of the iterator is
the response `fetch` returns. -/
theorem iter_fetch_agree (errorFromResponse : GoString → Option GoError) (q : Query)
    (conn : Option Conn) :
    (q.Iter errorFromResponse conn).1.Error = (q.fetch errorFromResponse conn).err ∧
    (q.Exec errorFromResponse conn).1 = (q.fetch errorFromResponse conn).err ∧
    (q.Iter errorFromResponse conn).2 = (q.fetch errorFromResponse conn).calls ∧
    (q.Exec errorFromResponse conn).2 = (q.fetch errorFromResponse conn).calls ∧
    ((q.fetch errorFromResponse conn).err = none →
      (q.Iter errorFromResponse conn).1.text = (q.fetch errorFromResponse conn).resp) := by
  unfold Query.Iter Query.Exec Query.fetch Iter.Error
  cases conn with
  | none => simp
  | some c =>
    simp only
    rcases c.transport q false with ⟨resp, _ | e⟩
    · simp only
      cases errorFromResponse resp <;> simp
    · simp

/-- Instance of C10: a transport that answers `"1\n"` and a classifier that finds
no failure. -/
theorem iter_fetch_agree_witness :
    (Query.Iter (fun _ => none) ⟨bytes "SELECT 1", [], [], some []⟩
        (some ⟨fun _ _ => (bytes "1\n", none)⟩)).1.text =
      (Query.fetch (fun _ => none) ⟨bytes "SELECT 1", [], [], some []⟩
        (some ⟨fun _ _ => (bytes "1\n", none)⟩)).resp :=
  (iter_fetch_agree (fun _ => none) ⟨bytes "SELECT 1", [], [], some []⟩
    (some ⟨fun _ _ => (bytes "1\n", none)⟩)).2.2.2.2 rfl


/-- C11, as the code has it: `fetch` returns a nil error only on full success,
and the string is then the response of the transport; with a nil connection
the string is empty; with a connection, the string returned is the response of
the transport whatever the error, also when the transport fails or
`errorFromResponse` finds a failure. -/
theorem fetch_response (errorFromResponse : GoString → Option GoError) (q : Query)
    (conn : Option Conn) :
    (conn = none → (q.fetch errorFromResponse conn).resp = [] ∧
      (q.fetch errorFromResponse conn).err = some "Connection pointer is nil") ∧
    (∀ c, conn = some c → (q.fetch errorFromResponse conn).resp = (c.transport q false).1) ∧
    ((q.fetch errorFromResponse conn).err = none →
      ∃ c, conn = some c ∧ (c.transport q false).2 = none ∧
        errorFromResponse (c.transport q false).1 = none ∧
        (q.fetch errorFromResponse conn).resp = (c.transport q false).1) := by
  unfold Query.fetch
  refine ⟨?_, ?_, ?_⟩
  · rintro rfl
    exact ⟨rfl, rfl⟩
  · rintro c rfl
    rcases hc : c.transport q false with ⟨resp, _ | e⟩ <;> simp [hc]
  · cases conn with
    | none => simp
    | some c =>
      rcases hc : c.transport q false with ⟨resp, _ | e⟩ <;> simp [hc]

/-- Instance of C11 as amended: a transport that answers `"1\n"` and an
`errorFromResponse` that finds no failure. -/
theorem fetch_response_witness :
    ∃ c : Conn, some (⟨fun _ _ => (bytes "1\n", none)⟩ : Conn) = some c ∧
      (c.transport ⟨bytes "SELECT 1", [], [], some []⟩ false).2 = none ∧
      (fun _ => none : GoString → Option GoError)
        (c.transport ⟨bytes "SELECT 1", [], [], some []⟩ false).1 = none ∧
      (Query.fetch (fun _ => none) ⟨bytes "SELECT 1", [], [], some []⟩
        (some ⟨fun _ _ => (bytes "1\n", none)⟩)).resp =
        (c.transport ⟨bytes "SELECT 1", [], [], some []⟩ false).1 :=
  (fetch_response (fun _ => none) ⟨bytes "SELECT 1", [], [], some []⟩
    (some ⟨fun _ _ => (bytes "1\n", none)⟩)).2.2 rfl

/-- C11 as stated fails: when `errorFromResponse` finds a failure in the
body, and when the transport fails after reading part of a response, `fetch`
returns the error together with the non-empty string of the transport. -/
theorem fetch_response_counterexample :
    Query.fetch (fun _ => some "Code: 62, Syntax error") ⟨bytes "SELEC 1", [], [], some []⟩
        (some ⟨fun _ _ => (bytes "Code: 62, Syntax error", none)⟩) =
      ⟨bytes "Code: 62, Syntax error", some "Code: 62, Syntax error",
        [Call.transportExec ⟨bytes "SELEC 1", [], [], some []⟩ false,
          Call.errorFromResponse (bytes "Code: 62, Syntax error")]⟩ ∧
    Query.fetch (fun _ => none) ⟨bytes "SELECT 1", [], [], some []⟩
        (some ⟨fun _ _ => (bytes "partial", some "connection reset")⟩) =
      ⟨bytes "partial", some "connection reset",
        [Call.transportExec ⟨bytes "SELECT 1", [], [], some []⟩ false]⟩ ∧
    bytes "Code: 62, Syntax error" ≠ [] ∧ bytes "partial" ≠ [] := by
  decide

/-- The collaborator calls of `fetch` are calls of the transport and of
`errorFromResponse`. -/
theorem fetch_calls (errorFromResponse : GoString → Option GoError) (q : Query)
    (conn : Option Conn) (data : GoString) :
    Call.jsonUnmarshal data ∉ (q.fetch errorFromResponse conn).calls := by
  unfold Query.fetch
  cases conn with
  | none => simp
  | some c =>
    rcases hc : c.transport q false with ⟨resp, _ | e⟩ <;> simp [hc]

/-- C13: when the dispatch of the query (with its format directive) fails,
whether on a nil connection, on a transport error or on a failure found by
`errorFromResponse`, `ExecScan` returns the error of `fetch` unchanged and
`ExecScanStat` returns it with the zero `Stat`; neither makes any
`json.Unmarshal` call, and the object is left as it was. -/
theorem dispatch_failure_no_decoding {T : Type}
    (errorFromResponse : GoString → Option GoError) (json : Json T) (q : Query)
    (conn : Option Conn) (dataObj : T) (e : GoError)
    (hfail : (Query.fetch errorFromResponse
      { q with Stmt := q.Stmt ++ bytes " FORMAT JSON" } conn).err = some e) :
    ((q.ExecScan errorFromResponse json conn dataObj).err = some e ∧
      (q.ExecScan errorFromResponse json conn dataObj).obj = dataObj ∧
      ∀ data, Call.jsonUnmarshal data ∉ (q.ExecScan errorFromResponse json conn dataObj).calls) ∧
    ((q.ExecScanStat errorFromResponse json conn dataObj).err = some e ∧
      (q.ExecScanStat errorFromResponse json conn dataObj).stat = Stat.zero ∧
      (q.ExecScanStat errorFromResponse json conn dataObj).obj = dataObj ∧
      ∀ data,
        Call.jsonUnmarshal data ∉ (q.ExecScanStat errorFromResponse json conn dataObj).calls) := by
  have hcalls := fetch_calls errorFromResponse
    { q with Stmt := q.Stmt ++ bytes " FORMAT JSON" } conn
  refine ⟨⟨?_, ?_, ?_⟩, ?_, ?_, ?_, ?_⟩
  all_goals first
    | (simp only [Query.ExecScan, Query.ExecScanStat, hfail]; done)
    | (simp only [Query.ExecScan, Query.ExecScanStat, hfail]; exact hcalls)

/-- Instance of C13: a transport that fails with "connection reset". -/
theorem dispatch_failure_no_decoding_witness :
    (Query.ExecScan (fun _ => none)
        (⟨fun _ => ([], none), fun _ o => (o + 1, none), fun _ s => (s, none)⟩ : Json Nat)
        ⟨bytes "SELECT 1", [], [], some []⟩
        (some ⟨fun _ _ => ([], some "connection reset")⟩) 7).obj = 7 :=
  (dispatch_failure_no_decoding (fun _ => none)
    (⟨fun _ => ([], none), fun _ o => (o + 1, none), fun _ s => (s, none)⟩ : Json Nat)
    ⟨bytes "SELECT 1", [], [], some []⟩
    (some ⟨fun _ _ => ([], some "connection reset")⟩) 7 "connection reset" rfl).1.2.1

/-- C14: with a non-nil connection, the first collaborator call of `ExecScan`
and of `ExecScanStat` hands the transport the query whose statement is the
statement of the caller followed by `" FORMAT JSON"`, with the arguments,
external datasets and parameters of the caller, and they make no other
transport call. The methods have a value receiver: the query of the caller is
the argument `q` itself, which the call leaves as it is, so a second call on
`q` dispatches that same query again. -/
theorem format_json_dispatch {T : Type} (errorFromResponse : GoString → Option GoError)
    (json : Json T) (q : Query) (c : Conn) (dataObj : T) :
    ((q.ExecScan errorFromResponse json (some c) dataObj).calls.head? =
        some (Call.transportExec ⟨q.Stmt ++ bytes " FORMAT JSON", q.args, q.externals, q.params⟩
          false) ∧
      ∀ q2 stream, Call.transportExec q2 stream ∈
          (q.ExecScan errorFromResponse json (some c) dataObj).calls →
        q2 = ⟨q.Stmt ++ bytes " FORMAT JSON", q.args, q.externals, q.params⟩ ∧ stream = false) ∧
    ((q.ExecScanStat errorFromResponse json (some c) dataObj).calls.head? =
        some (Call.transportExec ⟨q.Stmt ++ bytes " FORMAT JSON", q.args, q.externals, q.params⟩
          false) ∧
      ∀ q2 stream, Call.transportExec q2 stream ∈
          (q.ExecScanStat errorFromResponse json (some c) dataObj).calls →
        q2 = ⟨q.Stmt ++ bytes " FORMAT JSON", q.args, q.externals, q.params⟩ ∧ stream = false) := by
  unfold Query.ExecScan Query.ExecScanStat Query.readData Query.fetch
  rcases hc : c.transport ⟨q.Stmt ++ bytes " FORMAT JSON", q.args, q.externals, q.params⟩ false
    with ⟨resp, _ | e⟩
  · rcases hr : errorFromResponse resp with _ | e
    · rcases he : json.envelope resp with ⟨data, _ | e1⟩
      · rcases ht : json.target data dataObj with ⟨obj1, _ | e2⟩
        · rcases hs : json.stat resp Stat.zero with ⟨st, er⟩
          simp [hc, hr, he, ht, hs]
        · simp [hc, hr, he, ht]
      · simp [hc, hr, he]
    · simp [hc, hr]
  · simp [hc]


/-- Instance of C14: the statement `SELECT 1` is dispatched as
`SELECT 1 FORMAT JSON`. -/
theorem format_json_dispatch_witness :
    (Query.ExecScan (fun _ => none)
        (⟨fun _ => ([], none), fun _ o => (o + 1, none), fun _ s => (s, none)⟩ : Json Nat)
        ⟨bytes "SELECT 1", [], [], some []⟩
        (some ⟨fun _ _ => ([], none)⟩) 7).calls.head? =
      some (Call.transportExec
        ⟨bytes "SELECT 1" ++ bytes " FORMAT JSON", [], [], some []⟩ false) :=
  (format_json_dispatch (fun _ => none)
    (⟨fun _ => ([], none), fun _ o => (o + 1, none), fun _ s => (s, none)⟩ : Json Nat)
    ⟨bytes "SELECT 1", [], [], some []⟩ ⟨fun _ _ => ([], none)⟩ 7).1.1

theorem afterLine_suffix (t : GoString) : afterLine t <:+ t :=
  (List.drop_suffix 1 _).trans (List.dropWhile_suffix _)

theorem afterLine_length_lt (t : GoString) (h : t ≠ []) : (afterLine t).length < t.length := by
  have h1 : (t.dropWhile (· != nl)).length ≤ t.length := (List.dropWhile_suffix _).length_le
  have h2 : 0 < t.length := List.length_pos.2 h
  unfold afterLine
  rw [List.length_drop]
  omega

/-- Repeated `Scan` calls empty the buffer within as many calls as it has
bytes. -/
theorem scanTimes_reach_empty {D : Type} (um : Unmarshal D) (n : Nat) (r : Iter)
    (vars : List D) (h : r.Len ≤ n) : (scanTimes um n r vars).2.1.text = [] := by
  induction n generalizing r vars with
  | zero =>
    have h0 : r.text.length = 0 := by simpa [Iter.Len] using h
    simpa [scanTimes] using List.length_eq_zero.1 h0
  | succ n ih =>
    by_cases ht : r.text = []
    · rw [scanTimes_empty um (n + 1) r vars ht]; exact ht
    · simp only [scanTimes]
      apply ih
      have hlt := afterLine_length_lt r.text ht
      simp only [Iter.Len, Scan_text] at h ⊢
      omega

/-- C18: when a conversion fails during a `Scan` call (the conversions into
the destinations `pre` succeed and the conversion of the next field `f` into
the next destination `v` fails), the destinations `post` after the failing one
are as they were, and the buffer after the call is the text that followed the
newline of the failing line, or is empty when the failing line was the last
one and had no newline. -/
theorem conversion_failure_frame {D : Type} (um : Unmarshal D) (r : Iter)
    (pre post : List D) (v : D) (f : GoString) (e : GoError)
    (hrow : firstLine r.text ≠ [])
    (hwidth : (pre ++ v :: post).length ≤ (stringsSplit tab (firstLine r.text)).length)
    (hpre : ∀ (i : Nat) (w : D) (g : GoString), pre[i]? = some w →
      (stringsSplit tab (firstLine r.text))[i]? = some g → (um w g).2 = none)
    (hf : (stringsSplit tab (firstLine r.text))[pre.length]? = some f)
    (hfail : (um v f).2 = some e) :
    (r.Scan um (pre ++ v :: post)).ok = false ∧
    (r.Scan um (pre ++ v :: post)).vars =
      List.zipWith (fun w g => (um w g).1) pre (stringsSplit tab (firstLine r.text)) ++
        (um v f).1 :: post ∧
    (r.Scan um (pre ++ v :: post)).vars.drop (pre.length + 1) = post ∧
    (∀ line rest, nl ∉ line → r.text = line ++ nl :: rest →
      (r.Scan um (pre ++ v :: post)).iter.text = rest) ∧
    (nl ∉ r.text → (r.Scan um (pre ++ v :: post)).iter.text = []) := by
  have h1 : ¬ (firstLine r.text).length = 0 := by simpa using hrow
  have h2 : ¬ (stringsSplit tab (firstLine r.text)).length < (pre ++ v :: post).length := by
    omega
  have hlen : pre.length < (stringsSplit tab (firstLine r.text)).length := by
    simp only [List.length_append, List.length_cons] at hwidth
    omega
  have hget : (stringsSplit tab (firstLine r.text)).getD (0 + pre.length) [] = f := by
    simp [hf]
  have hloop := scanLoop_fail um (stringsSplit tab (firstLine r.text)) 0 pre post v e
    (by
      intro p hp
      simp only [List.drop_zero] at hp
      obtain ⟨i, hi1, hi2⟩ := mem_zip_index hp
      exact hpre i p.1 p.2 hi1 hi2)
    (by omega) (by rw [hget]; exact hfail)
  rw [hget, List.drop_zero] at hloop
  have hscan : r.Scan um (pre ++ v :: post) =
      ⟨false, { err := some e, text := afterLine r.text },
        List.zipWith (fun w g => (um w g).1) pre (stringsSplit tab (firstLine r.text)) ++
          (um v f).1 :: post⟩ := by
    rw [Scan_eq, if_neg h1, if_neg h2, hloop]
  rw [hscan]
  refine ⟨rfl, rfl, ?_, ?_, ?_⟩
  · have hz : (List.zipWith (fun w g => (um w g).1) pre
        (stringsSplit tab (firstLine r.text))).length = pre.length := by
      simp only [List.length_zipWith]
      omega
    simp only
    rw [List.drop_append_eq_append_drop, hz]
    simp [List.drop_of_length_le, hz]
  · intro line rest hline htext
    simp [htext, afterLine, (takeWhile_line line rest hline).2]
  · intro hlast
    simp [afterLine, (takeWhile_last r.text hlast).2]

/-- Instance of C18: the second of three fields is not a number and its
destination is an integer; a second line follows. -/
theorem conversion_failure_frame_witness :
    (Iter.Scan unmarshalScalar ⟨none, bytes "a\tx\tb\nc\t1\td\n"⟩
      ([GoValue.text []] ++ GoValue.int 0 :: [GoValue.text []])).vars.drop
        ([GoValue.text []].length + 1) = [GoValue.text []] :=
  (conversion_failure_frame unmarshalScalar ⟨none, bytes "a\tx\tb\nc\t1\td\n"⟩ [GoValue.text []]
    [GoValue.text []] (GoValue.int 0) (bytes "x") "invalid syntax: x" (by decide) (by decide)
    (by
      intro i w g hw _
      match i, hw with
      | 0, hw => simp at hw; subst hw; rfl
      | n + 1, hw => simp at hw)
    (by decide) (by decide)).2.2.1

/-- C19: `Scan` only moves forward. For every iterator, with an error set or
not, and every destination list, the buffer after a `Scan` call is a suffix of
the buffer before it; when the buffer before is non-empty `Len()` is strictly
smaller afterwards; after `n` calls, for every `n` that is at least the
initial `Len()`, the buffer is empty; and on an empty buffer `Scan` returns
false and leaves the iterator and the destinations as they were. -/
theorem scan_moves_forward {D : Type} (um : Unmarshal D) (r : Iter) (vars : List D) :
    (r.Scan um vars).iter.text <:+ r.text ∧
    (r.text ≠ [] → (r.Scan um vars).iter.Len < r.Len) ∧
    (∀ n, r.Len ≤ n → (scanTimes um n r vars).2.1.text = []) ∧
    (r.text = [] → r.Scan um vars = ⟨false, r, vars⟩) := by
  refine ⟨?_, ?_, fun n hn => scanTimes_reach_empty um n r vars hn,
    fun h => Scan_empty um r vars h⟩
  · rw [Scan_text]; exact afterLine_suffix r.text
  · intro h
    simp only [Iter.Len, Scan_text]
    exact afterLine_length_lt r.text h

/-- Instance of C19: a buffer of two lines. -/
theorem scan_moves_forward_witness :
    (Iter.Scan unmarshalScalar ⟨none, bytes "a\nb\n"⟩ [GoValue.text []]).iter.Len <
      (⟨none, bytes "a\nb\n"⟩ : Iter).Len :=
  (scan_moves_forward unmarshalScalar ⟨none, bytes "a\nb\n"⟩ [GoValue.text []]).2.1 (by decide)


/-! ## The parameter map -/

theorem lookup_assign_self (key : GoString) (vs : List GoString) (m : Entries) :
    (m.assign key vs).lookup key = some vs := by
  induction m with
  | nil => simp [Entries.assign, Entries.lookup]
  | cons e rest ih =>
    obtain ⟨k, old⟩ := e
    by_cases hk : k = key
    · simp [Entries.assign, Entries.lookup, hk]
    · simp [Entries.assign, Entries.lookup, hk, ih]

theorem lookup_assign_of_ne (key other : GoString) (vs : List GoString) (m : Entries)
    (h : other ≠ key) : (m.assign key vs).lookup other = m.lookup other := by
  induction m with
  | nil => simp [Entries.assign, Entries.lookup, Ne.symm h]
  | cons e rest ih =>
    obtain ⟨k, old⟩ := e
    by_cases hk : k = key
    · subst hk
      simp [Entries.assign, Entries.lookup, Ne.symm h]
    · by_cases ho : k = other
      · subst ho
        simp [Entries.assign, Entries.lookup, hk]
      · simp [Entries.assign, Entries.lookup, hk, ho, ih]

/-- Assigning to a key the value it already has leaves the map as it is. -/
theorem assign_same (key : GoString) (vs : List GoString) (m : Entries)
    (h : m.lookup key = some vs) : m.assign key vs = m := by
  induction m with
  | nil => simp [Entries.lookup] at h
  | cons e rest ih =>
    obtain ⟨k, old⟩ := e
    by_cases hk : k = key
    · simp only [Entries.lookup, hk, if_true, Option.some.injEq] at h
      simp [Entries.assign, hk, h]
    · simp only [Entries.lookup, hk, if_false] at h
      simp [Entries.assign, hk, ih h]

theorem Get_assign_of_ne (key other : GoString) (vs : List GoString) (m : Entries)
    (h : other ≠ key) :
    Values.Get (some (m.assign key vs)) other = Values.Get (some m) other := by
  simp [Values.Get, Values.lookup, lookup_assign_of_ne key other vs m h]

/-- One round of the loop of `MergeParams` on an initialised map, for a
default with a first value. -/
theorem mergeLoop_cons (m : Entries) (key first : GoString) (tail : List GoString)
    (rest : Entries) :
    mergeLoop (some m) ((key, first :: tail) :: rest) =
      mergeLoop (some (if Values.Get (some m) key = [] then m.assign key [first] else m)) rest := by
  by_cases h : Values.Get (some m) key = []
  · simp [mergeLoop, h, Values.Set]
  · simp [mergeLoop, h]

/-- On an initialised map and defaults that all have a first value, the loop
of `MergeParams` completes. -/
theorem mergeLoop_ok (d : Entries) (m : Entries) (hvals : ∀ e ∈ d, e.2 ≠ []) :
    ∃ m1, mergeLoop (some m) d = .ok (some m1) := by
  induction d generalizing m with
  | nil => exact ⟨m, rfl⟩
  | cons e rest ih =>
    obtain ⟨key, value⟩ := e
    cases value with
    | nil => exact absurd rfl (hvals (key, []) (by simp))
    | cons first tail =>
      rw [mergeLoop_cons]
      exact ih _ (fun e he => hvals e (by simp [he]))

/-- The loop of `MergeParams` leaves the keys that are not in the default set
as they were. -/
theorem mergeLoop_lookup_of_not_mem (d : Entries) (m m1 : Entries) (key : GoString)
    (hvals : ∀ e ∈ d, e.2 ≠ []) (hkey : key ∉ d.map Prod.fst)
    (h : mergeLoop (some m) d = .ok (some m1)) : m1.lookup key = m.lookup key := by
  induction d generalizing m with
  | nil =>
    simp only [mergeLoop, Outcome.ok.injEq, Option.some.injEq] at h
    rw [h]
  | cons e rest ih =>
    obtain ⟨k, value⟩ := e
    simp only [List.map_cons, List.mem_cons, not_or] at hkey
    cases value with
    | nil => exact absurd rfl (hvals (k, []) (by simp))
    | cons first tail =>
      rw [mergeLoop_cons] at h
      rw [ih _ (fun e he => hvals e (by simp [he])) hkey.2 h]
      split
      · exact lookup_assign_of_ne k key [first] m hkey.1
      · rfl

/-- What the loop of `MergeParams` leaves under a key of the default set. -/
theorem mergeLoop_lookup_of_mem (d : Entries) (m m1 : Entries) (key first : GoString)
    (tail : List GoString) (hvals : ∀ e ∈ d, e.2 ≠ []) (hkeys : (d.map Prod.fst).Nodup)
    (hmem : (key, first :: tail) ∈ d) (h : mergeLoop (some m) d = .ok (some m1)) :
    m1.lookup key = if Values.Get (some m) key = [] then some [first] else m.lookup key := by
  induction d generalizing m with
  | nil => simp at hmem
  | cons e rest ih =>
    obtain ⟨k, value⟩ := e
    simp only [List.map_cons, List.nodup_cons] at hkeys
    have hrest : ∀ e ∈ rest, e.2 ≠ [] := fun e he => hvals e (by simp [he])
    cases value with
    | nil => exact absurd rfl (hvals (k, []) (by simp))
    | cons first0 tail0 =>
      rw [mergeLoop_cons] at h
      rcases List.mem_cons.1 hmem with heq | hin
      · simp only [Prod.mk.injEq, List.cons.injEq] at heq
        obtain ⟨rfl, rfl, rfl⟩ := heq
        rw [mergeLoop_lookup_of_not_mem rest _ m1 key hrest hkeys.1 h]
        split
        · exact lookup_assign_self key [first] m
        · rfl
      · have hne : key ≠ k := by
          rintro rfl
          exact hkeys.1 (List.mem_map.2 ⟨(key, first :: tail), hin, rfl⟩)
        rw [ih _ hrest hkeys.2 hin h]
        split
        · rw [Get_assign_of_ne k key [first0] m hne, lookup_assign_of_ne k key [first0] m hne]
        · rfl

/-- A map in which every key of the default set either has a non-empty first
value or holds the single first value of its default is left as it is by the
loop of `MergeParams`. -/
theorem mergeLoop_fixed (d : Entries) (m : Entries) (hvals : ∀ e ∈ d, e.2 ≠ [])
    (hfix : ∀ key first tail, (key, first :: tail) ∈ d → Values.Get (some m) key = [] →
      m.lookup key = some [first]) :
    mergeLoop (some m) d = .ok (some m) := by
  induction d with
  | nil => rfl
  | cons e rest ih =>
    obtain ⟨k, value⟩ := e
    cases value with
    | nil => exact absurd rfl (hvals (k, []) (by simp))
    | cons first tail =>
      rw [mergeLoop_cons]
      have hsame : (if Values.Get (some m) k = [] then m.assign k [first] else m) = m := by
        split
        · next hget => exact assign_same k [first] m (hfix k first tail (by simp) hget)
        · rfl
      rw [hsame]
      exact ih (fun e he => hvals e (by simp [he]))
        (fun key first tail hmem => hfix key first tail (by simp [hmem]))


/-! ## The query builder -/

/-- C15, as the code has it: `MergeParams` tells a key that is set by
`Get(key) != ""`. For every query with an initialised parameter map and every
default set (a map: its keys are distinct) whose keys all have a first value,
the call completes and changes
nothing but the parameter map; each key whose stored list begins with a
non-empty value keeps its list, as does each key that is not in the default
set; and each key of the default set that had no entry, or whose list was
empty or began with the empty string, is set to the single first value of its
default list. -/
theorem merge_params_keeps_set_keys (q : Query) (m d : Entries)
    (hinit : q.params = some m)
    (hkeys : (d.map Prod.fst).Nodup)
    (hvals : ∀ e ∈ d, e.2 ≠ []) :
    ∃ q1, q.MergeParams (some d) = .ok q1 ∧
      q1.Stmt = q.Stmt ∧ q1.args = q.args ∧ q1.externals = q.externals ∧
      (∀ key, q.params.Get key ≠ [] → q1.params.lookup key = q.params.lookup key) ∧
      (∀ key, key ∉ d.map Prod.fst → q1.params.lookup key = q.params.lookup key) ∧
      (∀ key first tail, (key, first :: tail) ∈ d → q.params.Get key = [] →
        q1.params.lookup key = some [first]) := by
  obtain ⟨m1, hm1⟩ := mergeLoop_ok d m hvals
  refine ⟨{ q with params := some m1 }, ?_, rfl, rfl, rfl, ?_, ?_, ?_⟩
  · simp [Query.MergeParams, hinit, hm1]
  · intro key hget
    rw [hinit] at hget ⊢
    by_cases hmem : key ∈ d.map Prod.fst
    · obtain ⟨⟨k, value⟩, he, rfl⟩ := List.mem_map.1 hmem
      cases value with
      | nil => exact absurd rfl (hvals (k, []) he)
      | cons first tail =>
        simp only [Values.lookup]
        rw [mergeLoop_lookup_of_mem d m m1 k first tail hvals hkeys he hm1, if_neg hget]
    · exact mergeLoop_lookup_of_not_mem d m m1 key hvals hmem hm1
  · intro key hmem
    rw [hinit]
    exact mergeLoop_lookup_of_not_mem d m m1 key hvals hmem hm1
  · intro key first tail he hget
    rw [hinit] at hget
    simp only [Values.lookup]
    rw [mergeLoop_lookup_of_mem d m m1 key first tail hvals hkeys he hm1, if_pos hget]

/-- Instance of C15 as amended: the parameter `max_threads` is set and
`readonly` is not. -/
theorem merge_params_keeps_set_keys_witness :
    ∃ q1, Query.MergeParams ⟨bytes "SELECT 1", [], [], some [(bytes "max_threads", [bytes "4"])]⟩
        (some [(bytes "max_threads", [bytes "8"]), (bytes "readonly", [bytes "1", bytes "2"])]) =
          .ok q1 ∧
      q1.params.lookup (bytes "max_threads") = some [bytes "4"] ∧
      q1.params.lookup (bytes "readonly") = some [bytes "1"] := by
  obtain ⟨q1, h1, -, -, -, h2, -, h3⟩ := merge_params_keeps_set_keys
    ⟨bytes "SELECT 1", [], [], some [(bytes "max_threads", [bytes "4"])]⟩
    [(bytes "max_threads", [bytes "4"])]
    [(bytes "max_threads", [bytes "8"]), (bytes "readonly", [bytes "1", bytes "2"])]
    rfl (by decide) (by decide)
  exact ⟨q1, h1, h2 (bytes "max_threads") (by decide),
    h3 (bytes "readonly") (bytes "1") [bytes "2"] (by decide) (by decide)⟩

/-- C15 as stated fails: a key that has an entry whose first value is the
empty string is overwritten, and the values stored after the first are lost. -/
theorem merge_params_overwrite_counterexample :
    Values.lookup (some [(bytes "k", [bytes "", bytes "x"])]) (bytes "k") =
      some [bytes "", bytes "x"] ∧
    Query.MergeParams ⟨bytes "SELECT 1", [], [], some [(bytes "k", [bytes "", bytes "x"])]⟩
        (some [(bytes "k", [bytes "d"])]) =
      .ok ⟨bytes "SELECT 1", [], [], some [(bytes "k", [bytes "d"])]⟩ ∧
    Values.lookup (some [(bytes "k", [bytes "d"])]) (bytes "k") ≠
      Values.lookup (some [(bytes "k", [bytes "", bytes "x"])]) (bytes "k") := by
  decide

/-- C16: `MergeParams` is idempotent. For every query and every default set
(a map: its keys are distinct) in which each key has at least one value, a
second `MergeParams` call with
the same defaults ends as the first one did and leaves the query the first
one left; and when the parameter map of the query is initialised, both calls
complete. -/
theorem merge_params_idempotent (q : Query) (params : Values)
    (hkeys : ∀ d, params = some d → (d.map Prod.fst).Nodup)
    (hvals : ∀ d, params = some d → ∀ e ∈ d, e.2 ≠ []) :
    (match q.MergeParams params with
      | .ok q1 => q1.MergeParams params
      | .panicked msg => .panicked msg) = q.MergeParams params ∧
    (∀ m, q.params = some m →
      ∃ q1, q.MergeParams params = .ok q1 ∧ q1.MergeParams params = .ok q1) := by
  have hinit : ∀ m, q.params = some m →
      ∃ q1, q.MergeParams params = .ok q1 ∧ q1.MergeParams params = .ok q1 := by
    intro m hm
    cases params with
    | none => exact ⟨q, by simp [Query.MergeParams, mergeLoop], by simp [Query.MergeParams, mergeLoop]⟩
    | some d =>
      have hv := hvals d rfl
      have hk := hkeys d rfl
      obtain ⟨m1, hm1⟩ := mergeLoop_ok d m hv
      have hfix : mergeLoop (some m1) d = .ok (some m1) := by
        apply mergeLoop_fixed d m1 hv
        intro key first tail he hget
        have hl := mergeLoop_lookup_of_mem d m m1 key first tail hv hk he hm1
        by_cases hg : Values.Get (some m) key = []
        · rw [hl, if_pos hg]
        · rw [if_neg hg] at hl
          exact absurd hget (by simpa [Values.Get, Values.lookup, hl] using hg)
      exact ⟨{ q with params := some m1 }, by simp [Query.MergeParams, hm, hm1],
        by simp [Query.MergeParams, hfix]⟩
  refine ⟨?_, hinit⟩
  cases hq : q.params with
  | some m =>
    obtain ⟨q1, h1, h2⟩ := hinit m hq
    rw [h1]
    exact h2
  | none =>
    cases params with
    | none => simp [Query.MergeParams, mergeLoop, hq]
    | some d =>
      cases d with
      | nil => simp [Query.MergeParams, mergeLoop, hq]
      | cons e rest =>
        obtain ⟨key, value⟩ := e
        cases value with
        | nil => exact absurd rfl (hvals _ rfl (key, []) (by simp))
        | cons first tail =>
          simp [Query.MergeParams, mergeLoop, hq, Values.Get, Values.lookup, Values.Set]

/-- Instance of C16: one default fills `readonly`, the other finds
`max_threads` set. -/
theorem merge_params_idempotent_witness :
    ∃ q1, Query.MergeParams ⟨bytes "SELECT 1", [], [], some [(bytes "max_threads", [bytes "4"])]⟩
        (some [(bytes "max_threads", [bytes "8"]), (bytes "readonly", [bytes ""])]) = .ok q1 ∧
      q1.MergeParams
        (some [(bytes "max_threads", [bytes "8"]), (bytes "readonly", [bytes ""])]) = .ok q1 :=
  (merge_params_idempotent
    ⟨bytes "SELECT 1", [], [], some [(bytes "max_threads", [bytes "4"])]⟩
    (some [(bytes "max_threads", [bytes "8"]), (bytes "readonly", [bytes ""])])
    (by intro d hd; cases hd; decide) (by intro d hd; cases hd; decide)).2
    [(bytes "max_threads", [bytes "4"])] rfl

/-- C17, as the code has it: `AddParam` assigns into the parameter map and
never creates it. On a query whose parameter map is initialised,
`AddParam(name, value)` completes and changes nothing but the parameter map; the list of `name` is the
list it had (empty when it had none) followed by `value`, and the list of
every other key is as it was; after a second `AddParam(name, value2)` the list
of `name` is the original list followed by `value`, `value2`. -/
theorem add_param_appends (q : Query) (m : Entries) (name value : GoString)
    (hinit : q.params = some m) :
    ∃ q1, q.AddParam name value = .ok q1 ∧
      q1.Stmt = q.Stmt ∧ q1.args = q.args ∧ q1.externals = q.externals ∧
      q1.params.lookup name = some ((q.params.lookup name).getD [] ++ [value]) ∧
      (∀ key, key ≠ name → q1.params.lookup key = q.params.lookup key) ∧
      ∀ value2, ∃ q2, q1.AddParam name value2 = .ok q2 ∧
        q2.params.lookup name = some ((q.params.lookup name).getD [] ++ [value, value2]) ∧
        ∀ key, key ≠ name → q2.params.lookup key = q.params.lookup key := by
  refine ⟨{ q with params := some (m.assign name ((m.lookup name).getD [] ++ [value])) },
    by simp [Query.AddParam, Values.Add, hinit], rfl, rfl, rfl, ?_, ?_, ?_⟩
  · simp [Values.lookup, hinit, lookup_assign_self]
  · intro key hkey
    simp [Values.lookup, hinit, lookup_assign_of_ne name key _ m hkey]
  · intro value2
    refine ⟨{ q with params := some ((m.assign name ((m.lookup name).getD [] ++ [value])).assign
        name (((m.assign name ((m.lookup name).getD [] ++ [value])).lookup name).getD [] ++
          [value2])) },
      by simp [Query.AddParam, Values.Add], ?_, ?_⟩
    · simp [Values.lookup, hinit, lookup_assign_self]
    · intro key hkey
      simp [Values.lookup, hinit, lookup_assign_of_ne name key _ _ hkey]

/-- Instance of C17: a second value for `max_threads`, next to `readonly`. -/
theorem add_param_appends_witness :
    ∃ q1, Query.AddParam
        ⟨bytes "SELECT 1", [], [],
          some [(bytes "max_threads", [bytes "4"]), (bytes "readonly", [bytes "1"])]⟩
        (bytes "max_threads") (bytes "8") = .ok q1 ∧
      q1.params.lookup (bytes "max_threads") = some [bytes "4", bytes "8"] ∧
      q1.params.lookup (bytes "readonly") = some [bytes "1"] := by
  obtain ⟨q1, h1, -, -, -, h2, h3, -⟩ := add_param_appends
    ⟨bytes "SELECT 1", [], [],
      some [(bytes "max_threads", [bytes "4"]), (bytes "readonly", [bytes "1"])]⟩
    [(bytes "max_threads", [bytes "4"]), (bytes "readonly", [bytes "1"])]
    (bytes "max_threads") (bytes "8") rfl
  exact ⟨q1, h1, h2, h3 (bytes "readonly") (by decide)⟩

/-- C17 as stated fails: on a query whose parameter map is nil, as in the
zero value `Query{Stmt: "SELECT 1"}`, `AddParam` appends nothing: the
assignment to an entry of the nil map panics. -/
theorem add_param_nil_map_counterexample :
    Query.AddParam ⟨bytes "SELECT 1", [], [], none⟩ (bytes "max_threads") (bytes "8") =
      .panicked "assignment to entry in nil map" ∧
    ¬ ∃ q1, Query.AddParam ⟨bytes "SELECT 1", [], [], none⟩ (bytes "max_threads") (bytes "8") =
      .ok q1 := by
  refine ⟨rfl, ?_⟩
  rintro ⟨q1, h⟩
  simp [Query.AddParam, Values.Add] at h

/-- C20 fails on the code: on an initialised, empty parameter map and a
default set that maps a key to an empty list of values, `MergeParams` reads
`value[0]` and panics with an index out of range. -/
theorem merge_params_empty_default_panics :
    Query.MergeParams ⟨bytes "SELECT 1", [], [], some []⟩
        (some [(bytes "max_memory_usage", [])]) =
      .panicked "index out of range [0] with length 0" := by
  decide


/-! ## The structured decoder -/

/-- C12, as the code has it: `Stat` reads `rows` and
`rows_before_limit_at_least` from the top level of the envelope and the other
three statistics from under `statistics`. On a successful dispatch whose body
parses to the envelope with `data`, `rows: 5`,
`rows_before_limit_at_least: 5` and
`statistics: {elapsed: 0.01, rows_read: 5, bytes_read: 100}`, and whose `data`
decodes into the object, `ExecScanStat` returns no error, the object decoded
from `data`, and the `Stat` with `Rows = 5`, `RowsBeforeLimitAtLeast = 5`,
`Elapsed` the `float64` of the literal `0.01`, `RowsRead = 5` and
`BytesRead = 100`. -/
theorem exec_scan_stat_envelope {T : Type} (errorFromResponse : GoString → Option GoError)
    (json : Json T) (q : Query) (c : Conn) (dataObj obj1 : T) (resp data : GoString)
    (parse : GoString → Option JsonValue) (parseFloat : GoString → Option ℚ)
    (dataDoc : JsonValue) (elapsed : ℚ)
    (htransport : c.transport ⟨q.Stmt ++ bytes " FORMAT JSON", q.args, q.externals, q.params⟩
      false = (resp, none))
    (hserver : errorFromResponse resp = none)
    (henvelope : json.envelope resp = (data, none))
    (htarget : json.target data dataObj = (obj1, none))
    (hstat : json.stat = jsonUnmarshalStat parse parseFloat)
    (hparse : parse resp = some (.object [(bytes "data", dataDoc),
      (bytes "rows", .number (bytes "5")),
      (bytes "rows_before_limit_at_least", .number (bytes "5")),
      (bytes "statistics", .object [(bytes "elapsed", .number (bytes "0.01")),
        (bytes "rows_read", .number (bytes "5")),
        (bytes "bytes_read", .number (bytes "100"))])]))
    (hfloat : parseFloat (bytes "0.01") = some elapsed) :
    (q.ExecScanStat errorFromResponse json (some c) dataObj).err = none ∧
    (q.ExecScanStat errorFromResponse json (some c) dataObj).obj = obj1 ∧
    (q.ExecScanStat errorFromResponse json (some c) dataObj).stat =
      ⟨5, 5, ⟨elapsed, 5, 100⟩⟩ := by
  have hs : json.stat resp Stat.zero = (⟨5, 5, ⟨elapsed, 5, 100⟩⟩, none) := by
    rw [hstat]
    unfold jsonUnmarshalStat
    rw [hparse]
    have e1 : bytes "rows" ≠ bytes "data" := by decide
    have e2 : bytes "rows_before_limit_at_least" ≠ bytes "data" := by decide
    have e3 : bytes "statistics" ≠ bytes "data" := by decide
    have e4 : bytes "rows_before_limit_at_least" ≠ bytes "rows" := by decide
    have e5 : bytes "statistics" ≠ bytes "rows" := by decide
    have e6 : bytes "statistics" ≠ bytes "rows_before_limit_at_least" := by decide
    have e7 : bytes "rows_read" ≠ bytes "elapsed" := by decide
    have e8 : bytes "bytes_read" ≠ bytes "elapsed" := by decide
    have e9 : bytes "bytes_read" ≠ bytes "rows_read" := by decide
    have i5 : strconvParseInt (bytes "5") = some 5 := by decide
    have i100 : strconvParseInt (bytes "100") = some 100 := by decide
    simp [jsonStat, jsonStatistics, jsonInt, jsonFloat, hfloat, i5, i100, Ne.symm e1, Ne.symm e2,
      Ne.symm e3, Ne.symm e4, Ne.symm e5, Ne.symm e6, Ne.symm e7, Ne.symm e8, Ne.symm e9,
      e1, e2, e3, e4, e5, e6, e7, e8, e9, Stat.zero]
  simp [Query.ExecScanStat, Query.readData, Query.fetch, htransport, hserver, henvelope, htarget,
    hs]

/-- Instance of C12 as amended: the envelope with `rows` and
`rows_before_limit_at_least` at its top level. -/
theorem exec_scan_stat_envelope_witness :
    (Query.ExecScanStat (fun _ => none) (exampleJson statEnvelopeText statEnvelope)
        ⟨bytes "SELECT 1", [], [], some []⟩ (some ⟨fun _ _ => (statEnvelopeText, none)⟩) 7).err =
      none ∧
    (Query.ExecScanStat (fun _ => none) (exampleJson statEnvelopeText statEnvelope)
        ⟨bytes "SELECT 1", [], [], some []⟩ (some ⟨fun _ _ => (statEnvelopeText, none)⟩) 7).obj =
      0 ∧
    (Query.ExecScanStat (fun _ => none) (exampleJson statEnvelopeText statEnvelope)
        ⟨bytes "SELECT 1", [], [], some []⟩ (some ⟨fun _ _ => (statEnvelopeText, none)⟩) 7).stat =
      ⟨5, 5, ⟨float64_0_01, 5, 100⟩⟩ :=
  exec_scan_stat_envelope (fun _ => none) (exampleJson statEnvelopeText statEnvelope)
    ⟨bytes "SELECT 1", [], [], some []⟩ ⟨fun _ _ => (statEnvelopeText, none)⟩ 7 0
    statEnvelopeText (bytes "[]")
    (fun resp => if resp = statEnvelopeText then some statEnvelope else none)
    (fun literal => if literal = bytes "0.01" then some float64_0_01 else none)
    (.array []) float64_0_01 rfl rfl (by simp [exampleJson]) (by simp [exampleJson]) rfl
    (by simp [statEnvelope]) (by simp)

/-- C12 as stated fails: on the envelope of the specification, where all five
numbers are members of `statistics`, `ExecScanStat` succeeds and returns
`Rows = 0` and `RowsBeforeLimitAtLeast = 0`; only the other three statistics
are read. -/
theorem exec_scan_stat_counterexample :
    (Query.ExecScanStat (fun _ => none) (exampleJson specEnvelopeText specEnvelope)
        ⟨bytes "SELECT 1", [], [], some []⟩ (some ⟨fun _ _ => (specEnvelopeText, none)⟩) 7).err =
      none ∧
    (Query.ExecScanStat (fun _ => none) (exampleJson specEnvelopeText specEnvelope)
        ⟨bytes "SELECT 1", [], [], some []⟩
        (some ⟨fun _ _ => (specEnvelopeText, none)⟩) 7).stat.Rows = 0 ∧
    (Query.ExecScanStat (fun _ => none) (exampleJson specEnvelopeText specEnvelope)
        ⟨bytes "SELECT 1", [], [], some []⟩
        (some ⟨fun _ _ => (specEnvelopeText, none)⟩) 7).stat.RowsBeforeLimitAtLeast = 0 ∧
    (Query.ExecScanStat (fun _ => none) (exampleJson specEnvelopeText specEnvelope)
        ⟨bytes "SELECT 1", [], [], some []⟩
        (some ⟨fun _ _ => (specEnvelopeText, none)⟩) 7).stat.Stat.RowsRead = 5 ∧
    (Query.ExecScanStat (fun _ => none) (exampleJson specEnvelopeText specEnvelope)
        ⟨bytes "SELECT 1", [], [], some []⟩
        (some ⟨fun _ _ => (specEnvelopeText, none)⟩) 7).stat.Stat.BytesRead = 100 := by
  decide

end Clickhouse
